import Mathlib

/-!
Verification of the ChainLance agent-orchestration core against its
natural-language specification.

The Python sources are shallowly embedded as Lean definitions:

* `src/asi_agents/agentverse_coordinator.py` — `_calculate_consensus` and
  `_process_agent_result` (consensus gate, result collection);
* `src/asi-agents/src/agents/multi_agent_verifier.py` — agent discovery and
  ranking, parallel dispatch with failure isolation, weighted aggregation;
* `src/asi-agents/src/metta/knowledge_graph.py` — the scoring black box
  (`reason_about_work`, `WorkQualityAssessment`);
* `src/asi-agents/src/protocols/asi_one_chat.py` — the staged-approval
  conversation machine and its payment messages;
* `src/asi-agents/agent_coordinator.py` — the worker registry (registration,
  heartbeat, load increment on assignment).

Python floats are modelled as exact rationals (`ℚ`); wall-clock timestamps
and log statements are dropped; `np.random` / `random` draws are passed in
explicitly as a `rand : String → ℚ` environment keyed by the criterion being
evaluated.  Python `dict`s are modelled as association lists with
first-match lookup and insert-or-update-in-place semantics, which matches
insertion-ordered CPython dicts.
-/

/-- First-match lookup in an association list (Python `d[k]` / `k in d`). -/
def alist_get {β : Type} : List (String × β) → String → Option β
  | [], _ => none
  | (k, v) :: rest, key => if k = key then some v else alist_get rest key

/-- Insert-or-update in an association list (Python `d[k] = v`): the first
binding of the key is overwritten in place; a new key is appended. -/
def alist_set {β : Type} : List (String × β) → String → β → List (String × β)
  | [], key, v => [(key, v)]
  | (k, w) :: rest, key, v =>
      if k = key then (k, v) :: rest else (k, w) :: alist_set rest key v

/-- Lookup with default 0, for score accumulators. -/
def alist_getD (l : List (String × ℚ)) (k : String) : ℚ :=
  (alist_get l k).getD 0

/-- The keys of an association list, in order. -/
def akeys {β : Type} (l : List (String × β)) : List String :=
  l.map Prod.fst

/-- Sum of the values of an association list. -/
def valsSum (l : List (String × ℚ)) : ℚ :=
  (l.map Prod.snd).sum

/-- One `weighted_scores[criterion] += v` step of the aggregation loop in
`MultiAgentVerificationCoordinator.aggregate_verification_results` (with the
`if criterion not in weighted_scores: weighted_scores[criterion] = 0`
initialisation folded in). -/
def addScore : List (String × ℚ) → String → ℚ → List (String × ℚ)
  | [], c, v => [(c, v)]
  | (k, x) :: rest, c, v =>
      if k = c then (k, x + v) :: rest else (k, x) :: addScore rest c v

/-- The inner loop `for criterion, score in ...category_scores.items():
weighted_scores[criterion] += score * weight` of the aggregator. -/
def accumScoresW (acc : List (String × ℚ)) (scores : List (String × ℚ))
    (w : ℚ) : List (String × ℚ) :=
  scores.foldl (fun a p => addScore a p.1 (p.2 * w)) acc

/-- Model of Python `list(set(xs))` on strings: duplicates removed, keeping
the first occurrence (CPython's set iteration order is unspecified; only the
underlying set of elements is meaningful). -/
def pyDedup (l : List String) : List String :=
  l.foldl (fun acc x => if x ∈ acc then acc else acc ++ [x]) []

/-- Python `str.lower()`, written with structural recursion so that the
kernel can evaluate it (the categories appearing in the source are ASCII). -/
def pyLower (s : String) : String :=
  ⟨s.data.map Char.toLower⟩

/-- Sum of the values attached to key `c` in a score list. -/
def sumIf (scores : List (String × ℚ)) (c : String) : ℚ :=
  (scores.map (fun p => if p.1 = c then p.2 else 0)).sum

/-- Arithmetic mean of a list of rationals (`sum(xs)/len(xs)`; `0` on the
empty list since `ℚ` division by zero is zero).  This is the spec's
"weighted confidence: mean of per-worker confidence values across all
results contributing to a decision" — written from the spec's words, to be
compared with what the code computes. -/
def specMean (l : List ℚ) : ℚ :=
  l.sum / l.length

/-! ### Agentverse coordinator (`src/asi_agents/agentverse_coordinator.py`) -/

/-- `AgentVerificationResult` message model (analysis dict and timestamp
dropped — no claim observes them). -/
structure AgentVerificationResult where
  request_id : String
  agent_address : String
  approved : Bool
  confidence_score : ℚ
  issues_found : List String
  recommendations : List String
  deriving DecidableEq

/-- `ConsensusResult` message model (timestamp dropped). -/
structure ConsensusResult where
  request_id : String
  approved : Bool
  approval_rate : ℚ
  confidence_score : ℚ
  agent_count : ℕ
  results : List AgentVerificationResult
  payment_released : Bool
  deriving DecidableEq

/-- `AgentverseCoordinator._calculate_consensus`, the pure part: from the
collected per-agent results, compute the consensus (`none` models the early
`return` on an empty result list, which logs an error and produces no
decision).  Thresholds are the defaults: `CONSENSUS_THRESHOLD` 0.66 and the
hard-coded confidence threshold 0.7.  Note the confidence average is taken
over the *approved* results only (`approved_results`), with `0.0` when no
result is approved. -/
def calculateConsensus (results : List AgentVerificationResult)
    (request_id : String) : Option ConsensusResult :=
  if results.isEmpty then none
  else
    let approved_count := (results.filter (fun r => r.approved)).length
    let total_count := results.length
    let approval_rate : ℚ := (approved_count : ℚ) / (total_count : ℚ)
    let approved_results := results.filter (fun r => r.approved)
    let avg_confidence : ℚ :=
      if approved_results.isEmpty then 0
      else (approved_results.map (fun r => r.confidence_score)).sum /
        (approved_results.length : ℚ)
    let final_approved : Bool :=
      decide (33/50 ≤ approval_rate) && decide (7/10 ≤ avg_confidence)
    some { request_id := request_id
           approved := final_approved
           approval_rate := approval_rate
           confidence_score := avg_confidence
           agent_count := total_count
           results := results
           payment_released := final_approved }

/-- One entry of `active_verifications` (the request payload, agent list and
start time are dropped except for the agent count, which drives
`expected_count`). -/
structure Verification where
  agents : List String
  results : List AgentVerificationResult
  status : String
  consensus : Option ConsensusResult
  deriving DecidableEq

/-- The mutation performed by `AgentverseCoordinator._calculate_consensus`
on the stored verification: compute the consensus from the current results
and, if one is produced, store it and mark the verification completed. -/
def runConsensusUpdate (v : Verification) (request_id : String) :
    Verification :=
  match calculateConsensus v.results request_id with
  | none => v
  | some c => { v with status := "completed", consensus := some c }

/-- `AgentverseCoordinator._process_agent_result`: unknown request ids are
discarded with a warning; otherwise the result is appended and, once the
received count reaches the expected count, `_calculate_consensus` runs. -/
def processAgentResult (st : List (String × Verification))
    (r : AgentVerificationResult) : List (String × Verification) :=
  match alist_get st r.request_id with
  | none => st
  | some v =>
      let v' := { v with results := v.results ++ [r] }
      let v'' :=
        if v'.agents.length ≤ v'.results.length then
          runConsensusUpdate v' r.request_id
        else v'
      alist_set st r.request_id v''

/-! ### Worker registry (`src/asi-agents/agent_coordinator.py`) -/

/-- One entry of the `registered_agents` dict (type/endpoint/metadata and the
heartbeat timestamp dropped — no claim observes them). -/
structure AgentInfo where
  capabilities : List String
  status : String
  load : ℚ
  total_requests : ℕ
  successful_requests : ℕ
  deriving DecidableEq

/-- `successful_requests / max(total_requests, 1)` from `find_suitable_agent`. -/
def successRateOf (i : AgentInfo) : ℚ :=
  (i.successful_requests : ℚ) / (max i.total_requests 1 : ℕ)

/-- Eligibility filter of `find_suitable_agent`: active status, capability
match, and load strictly under the 0.8 soft overload guard. -/
def suitableFor (request_type : String) (p : String × AgentInfo) : Bool :=
  p.2.status = "active" && decide (request_type ∈ p.2.capabilities) &&
    decide (p.2.load < 4/5)

/-- Strict lexicographic comparison on the sort key
`(load, -success_rate)` used by `find_suitable_agent`. -/
def betterSuitable (a b : String × AgentInfo) : Bool :=
  decide (a.2.load < b.2.load) ||
    (decide (a.2.load = b.2.load) &&
      decide (successRateOf b.2 < successRateOf a.2))

/-- `suitable_agents.sort(key=lambda x: (x["load"], -x["success_rate"]))`
followed by taking element `[0]`: the first minimal element under the key
(Python's sort is stable, so the stable minimum is picked). -/
def pickSuitable : List (String × AgentInfo) → Option (String × AgentInfo)
  | [] => none
  | x :: xs =>
      some (xs.foldl (fun best y => if betterSuitable y best then y else best) x)

/-- `find_suitable_agent`: the address of the stable-minimal suitable agent,
or `none` when nothing qualifies. -/
def findSuitableAgent (reg : List (String × AgentInfo))
    (request_type : String) : Option String :=
  (pickSuitable (reg.filter (suitableFor request_type))).map Prod.fst

/-- The registry-mutating operations of `agent_coordinator.py`:
`handle_agent_registration`, `handle_agent_heartbeat`, and the load
increment performed by `handle_work_request` →
`assign_request_to_agent` on the agent chosen by `find_suitable_agent`. -/
inductive RegOp where
  | register (address : String) (capabilities : List String)
  | heartbeat (address : String) (status : String) (load : ℚ)
  | assign (request_type : String)
  deriving DecidableEq

/-- Apply one operation to the registry.  Registration overwrites the whole
entry with a fresh one (`load` 0, counters 0, status active); a heartbeat
for an unknown address is a no-op; assignment adds `0.1` to the chosen
agent's stored load (no clamping appears anywhere in the source). -/
def applyOp (reg : List (String × AgentInfo)) : RegOp →
    List (String × AgentInfo)
  | .register address capabilities =>
      alist_set reg address
        { capabilities := capabilities, status := "active", load := 0
          total_requests := 0, successful_requests := 0 }
  | .heartbeat address status load =>
      match alist_get reg address with
      | none => reg
      | some info => alist_set reg address { info with status := status, load := load }
  | .assign request_type =>
      match findSuitableAgent reg request_type with
      | none => reg
      | some address =>
          match alist_get reg address with
          | none => reg
          | some info => alist_set reg address { info with load := info.load + 1/10 }

/-- Apply a sequence of registry operations to the empty initial registry. -/
def applyOps (ops : List RegOp) : List (String × AgentInfo) :=
  ops.foldl applyOp []

/-! ### Agent discovery and ranking
(`src/asi-agents/src/agents/multi_agent_verifier.py`) -/

/-- `AgentSpecialty` enum. -/
inductive AgentSpecialty where
  | code_review
  | design_assessment
  | content_evaluation
  | security_audit
  | performance_analysis
  | ux_evaluation
  deriving DecidableEq

/-- `AgentProfile` dataclass (name/capabilities/url kept only where a claim
observes them; none do, but `agent_id` and `name` are retained for tie-break
analysis). -/
structure AgentProfile where
  agent_id : String
  name : String
  specialty : AgentSpecialty
  rating : ℚ
  total_verifications : ℕ
  success_rate : ℚ
  response_time_avg : ℚ
  cost_per_verification : ℚ
  available : Bool
  deriving DecidableEq

/-- `AgentverseDiscovery.rank_agents.calculate_score`: the weighted ranking
score `0.30·rating/5 + 0.25·successRate + 0.20·min(total/1000, 1)
+ 0.15·max(0, (600−avgLatency)/600) + 0.10·max(0, (0.2−cost)/0.2)`. -/
def calculateScore (a : AgentProfile) : ℚ :=
  a.rating / 5 * (3/10) + a.success_rate * (1/4) +
    min ((a.total_verifications : ℚ) / 1000) 1 * (1/5) +
    max 0 ((600 - a.response_time_avg) / 600) * (3/20) +
    max 0 ((1/5 - a.cost_per_verification) / (1/5)) * (1/10)

/-- Stable descending insertion for the ranking sort: the inserted element
goes in front of the first element whose score is ≤ its own, so an element
earlier in the input is placed before later equal-score elements. -/
def insertDesc (x : AgentProfile) : List AgentProfile → List AgentProfile
  | [] => [x]
  | y :: ys =>
      if calculateScore y ≤ calculateScore x then x :: y :: ys
      else y :: insertDesc x ys

/-- `rank_agents`: `sort(key=score, reverse=True)` — a stable descending
sort by `calculateScore` (Python's sort is stable and `reverse=True` does
not reorder equal keys), modelled as stable insertion sort. -/
def rankAgents : List AgentProfile → List AgentProfile
  | [] => []
  | a :: rest => insertDesc a (rankAgents rest)

/-- The static category → required-specialties table of
`discover_best_agents`; unmapped categories default to `[code_review]`. -/
def specialtyMapping (category : String) : List AgentSpecialty :=
  let c := pyLower category
  if c = "web development" then
    [.code_review, .security_audit, .performance_analysis]
  else if c = "mobile development" then
    [.code_review, .ux_evaluation, .performance_analysis]
  else if c = "ui/ux design" then [.design_assessment, .ux_evaluation]
  else if c = "content writing" then [.content_evaluation]
  else if c = "blockchain" then [.code_review, .security_audit]
  else if c = "ai/ml" then [.code_review, .performance_analysis]
  else [.code_review]

/-- The filter in `search_agentverse_agents`: specialty must be required and
the agent available.  The marketplace pool is a parameter (the source uses a
hard-coded mock list). -/
def searchFilter (pool : List AgentProfile) (specs : List AgentSpecialty) :
    List AgentProfile :=
  pool.filter (fun a => decide (a.specialty ∈ specs) && a.available)

/-- `discover_best_agents`: filter the pool by the category's specialties,
rank, and return the top `num_agents` (default 3 at the call sites). -/
def discoverBestAgents (pool : List AgentProfile) (category : String)
    (num_agents : ℕ) : List AgentProfile :=
  (rankAgents (searchFilter pool (specialtyMapping category))).take num_agents

/-- `MultiAgentVerificationCoordinator.matches_specialty`: the static
specialty → category table. -/
def matchesSpecialty (s : AgentSpecialty) (category : String) : Bool :=
  let cats : List String :=
    match s with
    | .code_review => ["web development", "mobile development", "blockchain", "ai/ml"]
    | .design_assessment => ["ui/ux design", "graphic design"]
    | .content_evaluation => ["content writing", "copywriting"]
    | .security_audit => ["web development", "blockchain", "mobile development"]
    | .performance_analysis => ["web development", "mobile development", "ai/ml"]
    | .ux_evaluation => ["ui/ux design", "mobile development", "web development"]
  decide (pyLower category ∈ cats)

/-! ### MeTTa scoring black box
(`src/asi-agents/src/metta/knowledge_graph.py`) -/

/-- `WorkVerificationContext` dataclass (submission timestamp dropped). -/
structure WorkVerificationContext where
  work_id : String
  contract_id : ℤ
  category : String
  deliverables : List String
  description : String
  requirements : List String
  freelancer_notes : String
  deriving DecidableEq

/-- The category-node selection of `MettaReasoner.reason_about_work`. -/
def categoryNode (category : String) : String :=
  let c := pyLower category
  if c = "web development" ∨ c = "mobile development" ∨ c = "blockchain" then
    "code_quality"
  else if c = "ui/ux design" ∨ c = "graphic design" then "design_quality"
  else if c = "content writing" ∨ c = "copywriting" then "content_quality"
  else "code_quality"

/-- The criterion weight tables installed by
`MettaReasoner.initialize_knowledge_base` (every node produced by
`categoryNode` is present in the graph, so the `in self.knowledge_graph`
guard always passes). -/
def ruleWeights (node : String) : List (String × ℚ) :=
  if node = "code_quality" then
    [("syntax_correctness", 3/10), ("best_practices", 1/4),
     ("documentation", 1/5), ("testing", 3/20), ("performance", 1/10)]
  else if node = "design_quality" then
    [("visual_appeal", 3/10), ("usability", 1/4), ("brand_consistency", 1/5),
     ("accessibility", 3/20), ("responsiveness", 1/10)]
  else if node = "content_quality" then
    [("accuracy", 3/10), ("clarity", 1/4), ("engagement", 1/5),
     ("seo_optimization", 3/20), ("originality", 1/10)]
  else []

/-- `MettaReasoner.evaluate_criterion`: the `np.random.uniform(0.6, 0.95)`
draw is supplied by the `rand` environment (keyed by the criterion, which is
evaluated exactly once per assessment), bumped by 0.05 when deliverables
exist and by 0.02 when the description is longer than 100 characters,
capped at 1. -/
def evaluateCriterion (rand : String → ℚ) (criterion : String)
    (deliverables : List String) (description : String) : ℚ :=
  let base := rand criterion
  let base := if 0 < deliverables.length then base + 1/20 else base
  let base := if 100 < description.length then base + 1/50 else base
  min 1 base

/-- The fields of a `WorkQualityAssessment` (the class constructor copies
the `reason_about_work` result dict field-for-field, so the same structure
serves for both; assessment timestamp dropped). -/
structure WorkQualityAssessment where
  overall_score : ℚ
  category_scores : List (String × ℚ)
  recommendations : List String
  confidence : ℚ
  reasoning_path : List String
  deriving DecidableEq

/-- `MettaReasoner.reason_about_work`: per-criterion scores from the
category's rule table, weight-summed overall score, textual recommendations
for low scores, and `confidence = min(1.0, 0.3·len(deliverables) + 0.4)`. -/
def reasonAboutWork (rand : String → ℚ) (category : String)
    (deliverables : List String) (description : String) :
    WorkQualityAssessment :=
  let weights := ruleWeights (categoryNode category)
  let scores :=
    weights.map (fun p => (p.1, evaluateCriterion rand p.1 deliverables description))
  { overall_score := (scores.zip weights).foldl
      (fun acc q => acc + q.1.2 * q.2.2) 0
    category_scores := scores
    recommendations := scores.filterMap (fun p =>
      if p.2 < 7/10 then
        some ("Improve " ++ (p.1.replace "_" " ") ++ ": Current score " ++
          toString p.2)
      else none)
    confidence := min 1 ((deliverables.length : ℚ) * (3/10) + 2/5)
    reasoning_path := weights.map (fun p =>
      p.1 ++ ": " ++ toString (evaluateCriterion rand p.1 deliverables description)
        ++ " (weight: " ++ toString p.2 ++ ")") }

/-- `assess_work_quality`: builds the work-data dict from the context and
runs the reasoner. -/
def assessWorkQuality (rand : String → ℚ) (ctx : WorkVerificationContext) :
    WorkQualityAssessment :=
  reasonAboutWork rand ctx.category ctx.deliverables ctx.description

/-- `WorkQualityAssessment.is_approved` (default threshold 0.75, hard-coded
confidence floor 0.6). -/
def wqaIsApproved (a : WorkQualityAssessment) (threshold : ℚ) : Bool :=
  decide (threshold ≤ a.overall_score) && decide (3/5 ≤ a.confidence)

/-- `WorkQualityAssessment.get_improvement_suggestions`. -/
def improvementSuggestions (a : WorkQualityAssessment) : List String :=
  a.category_scores.filterMap (fun p =>
    if p.2 < 7/10 then
      some ("Focus on improving " ++ (p.1.replace "_" " "))
    else none)

/-- The dict produced by `WorkQualityAssessment.to_dict` (timestamp
dropped): the assessment fields plus `approved` at the default threshold and
the improvement suggestions. -/
structure WQADict where
  overall_score : ℚ
  category_scores : List (String × ℚ)
  recommendations : List String
  confidence : ℚ
  reasoning_path : List String
  approved : Bool
  improvement_suggestions : List String
  deriving DecidableEq

/-- `WorkQualityAssessment.to_dict`. -/
def wqaToDict (a : WorkQualityAssessment) : WQADict :=
  { overall_score := a.overall_score
    category_scores := a.category_scores
    recommendations := a.recommendations
    confidence := a.confidence
    reasoning_path := a.reasoning_path
    approved := wqaIsApproved a (3/4)
    improvement_suggestions := improvementSuggestions a }

/-! ### Multi-agent dispatch and aggregation
(`src/asi-agents/src/agents/multi_agent_verifier.py`) -/

/-- The per-agent result dict built by `verify_with_single_agent`
(processing time, cost and timestamp dropped — no claim observes them). -/
structure AgentResult where
  agent_id : String
  agent_name : String
  specialty : AgentSpecialty
  assessment : WQADict
  confidence : ℚ
  deriving DecidableEq

/-- `verify_with_single_agent`: runs the MeTTa black box and adds a 0.05
confidence bonus when the agent's specialty matches the category, capped at
1 (the simulated `asyncio.sleep` is dropped). -/
def verifyWithSingleAgent (rand : String → ℚ) (agent : AgentProfile)
    (ctx : WorkVerificationContext) : AgentResult :=
  let metta := assessWorkQuality rand ctx
  let bonus : ℚ := if matchesSpecialty agent.specialty ctx.category then 1/20 else 0
  { agent_id := agent.agent_id
    agent_name := agent.name
    specialty := agent.specialty
    assessment := wqaToDict metta
    confidence := min 1 (metta.confidence + bonus) }

/-- `coordinate_agent_verifications` after the
`asyncio.gather(..., return_exceptions=True)` fan-in: each invocation
independently yields either a result or an exception (`Except.error`), and
the collection loop logs failures and appends only the valid results. -/
def coordinateAgentVerifications
    (outcomes : List (Except String AgentResult)) : List AgentResult :=
  outcomes.foldl
    (fun valid r => match r with
      | .error _ => valid
      | .ok v => valid ++ [v]) []

/-- The weight `confidence * specialty_weight` (1.2 on a specialty match,
1.0 otherwise) given to one result by
`aggregate_verification_results`. -/
def resultWeight (category : String) (r : AgentResult) : ℚ :=
  r.confidence * (if matchesSpecialty r.specialty category then 6/5 else 1)

/-- `total_weight` accumulated over the results. -/
def totalWeight (category : String) (results : List AgentResult) : ℚ :=
  (results.map (resultWeight category)).sum

/-- The `weighted_scores` dict after the accumulation loop of
`aggregate_verification_results` (before the division by total weight). -/
def accumWeighted (category : String) (results : List AgentResult) :
    List (String × ℚ) :=
  results.foldl
    (fun acc r => accumScoresW acc r.assessment.category_scores
      (resultWeight category r)) []

/-- `all_recommendations`: the concatenation of every result's
recommendation list, in result order. -/
def allRecommendations (results : List AgentResult) : List String :=
  results.foldl (fun acc r => acc ++ r.assessment.recommendations) []

/-- The non-empty branch of `aggregate_verification_results`: divide the
accumulated scores by the total weight when it is positive (otherwise leave
them), average the per-criterion scores into the overall score, deduplicate
the recommendations, and average the per-result confidences. -/
def aggregateCore (results : List AgentResult)
    (ctx : WorkVerificationContext) : WorkQualityAssessment :=
  let tw := totalWeight ctx.category results
  let ws := accumWeighted ctx.category results
  let ws := if 0 < tw then ws.map (fun p => (p.1, p.2 / tw)) else ws
  { overall_score := if ws.isEmpty then 0 else valsSum ws / (ws.length : ℚ)
    category_scores := ws
    recommendations := pyDedup (allRecommendations results)
    confidence := (results.map (fun r => r.confidence)).sum /
      (results.length : ℚ)
    reasoning_path :=
      ["Aggregated from " ++ toString results.length ++ " specialist agents"] }

/-- `aggregate_verification_results`: on an empty result list it falls back
to a single fresh MeTTa assessment (which consumes fresh randomness);
otherwise the weighted aggregation runs. -/
def aggregateVerificationResults (rand : String → ℚ)
    (results : List AgentResult) (ctx : WorkVerificationContext) :
    WorkQualityAssessment :=
  match results with
  | [] => assessWorkQuality rand ctx
  | _ :: _ => aggregateCore results ctx

/-! ### Staged-approval conversation machine
(`src/asi-agents/src/protocols/asi_one_chat.py`) -/

/-- The `MessageType` enum (only the constructors the claims observe plus
the ones used around them). -/
inductive MessageType where
  | work_submission
  | verification_request
  | agent_assessment
  | client_feedback
  | payment_trigger
  | revision_request
  | approval_notification
  | system_update
  deriving DecidableEq

/-- A `ChatMessage`, with its free-form `content` dict projected onto the
fields the claims observe: the payment percentage and trigger carried in
`payment_details` (absent for non-payment messages).  Message id, sender and
timestamp are dropped. -/
structure ChatMessage where
  msgType : MessageType
  recipient : String
  conversation_id : String
  percentage : Option ℕ
  trigger : Option String
  deriving DecidableEq

/-- One entry of the `conversations` dict (context and creation time
dropped). -/
structure Conversation where
  participants : List String
  messages : List ChatMessage
  status : String
  deriving DecidableEq

/-- `send_message`: append the message to its conversation's log when the
conversation exists (registered message handlers only log). -/
def sendMessage (convs : List (String × Conversation)) (m : ChatMessage) :
    List (String × Conversation) :=
  match alist_get convs m.conversation_id with
  | none => convs
  | some conv =>
      alist_set convs m.conversation_id
        { conv with messages := conv.messages ++ [m] }

/-- `next(p for p in conversation["participants"] if p != self.agent_id)`
(defaulting to the empty string instead of raising when no other participant
exists; conversations built by `start_conversation` always have one). -/
def clientOf (agent_id : String) (conv : Conversation) : String :=
  (conv.participants.find? (fun p => p ≠ agent_id)).getD ""

/-- The assessment-summary message of `handle_agent_assessment` (no payment
details). -/
def assessmentMessage (cid client : String) : ChatMessage :=
  { msgType := .agent_assessment, recipient := client, conversation_id := cid
    percentage := none, trigger := none }

/-- The partial-payment message of `trigger_agent_approval_payment`:
`amount_percentage = 20`, `trigger = "agent_approval"`. -/
def partialPaymentMessage (cid client : String) : ChatMessage :=
  { msgType := .payment_trigger, recipient := client, conversation_id := cid
    percentage := some 20, trigger := some "agent_approval" }

/-- The full-payment message of `trigger_full_payment`:
`amount_percentage = 80`, `trigger = "client_approval"`. -/
def fullPaymentMessage (cid client : String) : ChatMessage :=
  { msgType := .approval_notification, recipient := client
    conversation_id := cid, percentage := some 80
    trigger := some "client_approval" }

/-- The revision-request message of `handle_revision_request` (no payment
details). -/
def revisionMessage (cid client : String) : ChatMessage :=
  { msgType := .revision_request, recipient := client, conversation_id := cid
    percentage := none, trigger := none }

/-- `handle_agent_assessment`: missing conversations are ignored; otherwise
the assessment summary is sent and, when the assessment is approved,
`trigger_agent_approval_payment` re-reads the conversation and sends the
20% partial-payment message. -/
def handleAgentAssessment (agent_id : String)
    (convs : List (String × Conversation)) (assessment : WQADict)
    (cid : String) : List (String × Conversation) :=
  match alist_get convs cid with
  | none => convs
  | some conv =>
      let convs1 := sendMessage convs (assessmentMessage cid (clientOf agent_id conv))
      if assessment.approved then
        match alist_get convs1 cid with
        | none => convs1
        | some conv1 =>
            sendMessage convs1 (partialPaymentMessage cid (clientOf agent_id conv1))
      else convs1

/-- The client-feedback payload (`feedback` dict) projected onto the fields
the handlers read. -/
structure ClientFeedback where
  approved : Bool
  requested_changes : List String
  notes : String
  revision_deadline : String
  deriving DecidableEq

/-- `handle_client_feedback`: missing conversations are ignored; approval
routes to `trigger_full_payment` (80% message), rejection to
`handle_revision_request` (revision message), each of which re-reads the
conversation. -/
def handleClientFeedback (agent_id : String)
    (convs : List (String × Conversation)) (feedback : ClientFeedback)
    (cid : String) : List (String × Conversation) :=
  match alist_get convs cid with
  | none => convs
  | some _ =>
      if feedback.approved then
        match alist_get convs cid with
        | none => convs
        | some conv => sendMessage convs (fullPaymentMessage cid (clientOf agent_id conv))
      else
        match alist_get convs cid with
        | none => convs
        | some conv => sendMessage convs (revisionMessage cid (clientOf agent_id conv))

/-- A partial-payment event: 20% released on the `agent_approval` trigger. -/
def isPartialPaymentMsg (m : ChatMessage) : Bool :=
  m.msgType = MessageType.payment_trigger && m.percentage = some 20 &&
    m.trigger = some "agent_approval"

/-- A full-payment event: 80% released on the `client_approval` trigger. -/
def isFullPaymentMsg (m : ChatMessage) : Bool :=
  m.msgType = MessageType.approval_notification && m.percentage = some 80 &&
    m.trigger = some "client_approval"

/-- Any payment event (a message carrying a payment percentage). -/
def isPaymentMsg (m : ChatMessage) : Bool :=
  m.percentage.isSome

/-- A revision-request event. -/
def isRevisionMsg (m : ChatMessage) : Bool :=
  m.msgType = MessageType.revision_request

/-- Number of messages of a conversation satisfying `p`. -/
def countMsgs (p : ChatMessage → Bool) (conv : Conversation) : ℕ :=
  (conv.messages.filter p).length

/-! ### Concrete inputs used by the counterexamples and witnesses -/

/-- Three results: quorum met (2/3 approve) but the all-results mean
confidence is only 0.6. -/
def cexResultsC1 : List AgentVerificationResult :=
  [{ request_id := "req", agent_address := "a1", approved := true,
     confidence_score := 9/10, issues_found := [], recommendations := [] },
   { request_id := "req", agent_address := "a2", approved := true,
     confidence_score := 9/10, issues_found := [], recommendations := [] },
   { request_id := "req", agent_address := "a3", approved := false,
     confidence_score := 0, issues_found := [], recommendations := [] }]

/-- Two results with all-results mean confidence 0.5 but approved-only mean
confidence 0.9. -/
def cexResultsC2 : List AgentVerificationResult :=
  [{ request_id := "req", agent_address := "a1", approved := true,
     confidence_score := 9/10, issues_found := [], recommendations := [] },
   { request_id := "req", agent_address := "a2", approved := false,
     confidence_score := 1/10, issues_found := [], recommendations := [] }]

/-- A bare verification context ("web development", no deliverables). -/
def cexCtx : WorkVerificationContext :=
  { work_id := "w1", contract_id := 0, category := "web development"
    deliverables := [], description := "", requirements := []
    freelancer_notes := "" }

/-- An approved unit-confidence result for the late-arrival scenario. -/
def c4FirstResult : AgentVerificationResult :=
  { request_id := "req", agent_address := "a1", approved := true,
    confidence_score := 1, issues_found := [], recommendations := [] }

/-- A rejecting zero-confidence result arriving after consensus. -/
def c4LateResult : AgentVerificationResult :=
  { request_id := "req", agent_address := "a2", approved := false,
    confidence_score := 0, issues_found := [], recommendations := [] }

/-- The coordinator state after the expected single result arrived and
consensus was computed. -/
def c4State : List (String × Verification) :=
  [("req", { agents := ["a1"], results := [c4FirstResult]
             status := "completed"
             consensus := calculateConsensus [c4FirstResult] "req" })]

/-- Two agent results with disjoint criterion names and distinct
recommendations, used to observe arrival-order dependence. -/
def cexAgentResultA : AgentResult :=
  { agent_id := "a1", agent_name := "A", specialty := .code_review
    assessment := { overall_score := 1/2, category_scores := [("alpha", 1/2)]
                    recommendations := ["do x"], confidence := 1
                    reasoning_path := [], approved := true
                    improvement_suggestions := [] }
    confidence := 1 }

/-- Companion result to `cexAgentResultA` with different criterion and
recommendation. -/
def cexAgentResultB : AgentResult :=
  { agent_id := "a2", agent_name := "B", specialty := .security_audit
    assessment := { overall_score := 1/2, category_scores := [("beta", 1/2)]
                    recommendations := ["do y"], confidence := 1
                    reasoning_path := [], approved := true
                    improvement_suggestions := [] }
    confidence := 1 }

/-- Two identically-scoring agent profiles whose ids are in reverse
lexicographic order. -/
def cexProfileZ : AgentProfile :=
  { agent_id := "zz_agent", name := "Z", specialty := .code_review
    rating := 4, total_verifications := 100, success_rate := 1/2
    response_time_avg := 100, cost_per_verification := 1/20
    available := true }

/-- Same statistics as `cexProfileZ` but a lexicographically smaller id. -/
def cexProfileA : AgentProfile :=
  { agent_id := "aa_agent", name := "A", specialty := .code_review
    rating := 4, total_verifications := 100, success_rate := 1/2
    response_time_avg := 100, cost_per_verification := 1/20
    available := true }

/-- Register a worker, then heartbeat it with load 1.5 (the message field is
stored unvalidated). -/
def cexOpsC8 : List RegOp :=
  [.register "w" ["verification"], .heartbeat "w" "active" (3/2)]

/-- A well-behaved operation sequence: register, in-range heartbeat, one
assignment. -/
def c8WitnessOps : List RegOp :=
  [.register "w" ["verification"], .heartbeat "w" "active" (1/2),
   .assign "verification"]

/-- A fresh two-participant conversation. -/
def c9Conv : Conversation :=
  { participants := ["agent", "client"], messages := [], status := "active" }

/-- A conversation store holding only `c9Conv`. -/
def c9Convs : List (String × Conversation) := [("c1", c9Conv)]

/-- An approved assessment payload. -/
def c9Assessment : WQADict :=
  { overall_score := 4/5, category_scores := [], recommendations := []
    confidence := 1, reasoning_path := [], approved := true
    improvement_suggestions := [] }

/-- Rejecting client feedback. -/
def c9Feedback : ClientFeedback :=
  { approved := false, requested_changes := ["fix"], notes := ""
    revision_deadline := "" }

/-- Per-operation guard used by the amended load invariant: heartbeat loads
must already lie in [0, 1] (the code never clamps). -/
def heartbeatLoadOk : RegOp → Bool
  | .heartbeat _ _ load => decide (0 ≤ load) && decide (load ≤ 1)
  | _ => true

/-- All stored loads lie in [0, 1]. -/
def loadsInRange (reg : List (String × AgentInfo)) : Bool :=
  reg.all (fun p => decide (0 ≤ p.2.load) && decide (p.2.load ≤ 1))

/-! ## Helper lemmas -/

/-- The `0.0`-guarded average in `_calculate_consensus` is the plain mean
(`ℚ` division by zero already gives 0 on the empty list). -/
theorem avgConf_eq (l : List AgentVerificationResult) :
    (if l.isEmpty then (0 : ℚ)
      else (l.map (fun r => r.confidence_score)).sum / (l.length : ℚ)) =
      specMean (l.map (fun r => r.confidence_score)) := by
  cases l with
  | nil => simp [specMean]
  | cons b bs => simp [specMean]

/-- Characterisation of `_calculate_consensus` on a non-empty result list:
the decision exists, its approval rate and confidence are the stated
quotients (the confidence being the mean over the approved results only),
and the approval flag is the inclusive double-threshold gate. -/
theorem calculateConsensus_char (results : List AgentVerificationResult)
    (rid : String) (h : results ≠ []) :
    ∃ c, calculateConsensus results rid = some c ∧
      c.approval_rate =
        ((results.filter (fun r => r.approved)).length : ℚ) /
          (results.length : ℚ) ∧
      c.confidence_score =
        specMean ((results.filter (fun r => r.approved)).map
          (fun r => r.confidence_score)) ∧
      (c.approved = true ↔
        (33/50 ≤ c.approval_rate ∧ 7/10 ≤ c.confidence_score)) ∧
      c.payment_released = c.approved ∧
      c.agent_count = results.length := by
  obtain ⟨a, as, rfl⟩ := List.exists_cons_of_ne_nil h
  refine ⟨_, rfl, rfl, avgConf_eq _, ?_, rfl, rfl⟩
  simp [Bool.and_eq_true, decide_eq_true_iff]


/-- Looking up a key just stored finds the stored value. -/
theorem alist_get_set_self {β : Type} (l : List (String × β)) (k : String)
    (v : β) : alist_get (alist_set l k v) k = some v := by
  induction l with
  | nil => simp [alist_get, alist_set]
  | cons p rest ih =>
      by_cases h : p.1 = k
      · simp [alist_set, alist_get, h]
      · cases p with
        | mk k0 v0 =>
            simp only at h
            simp [alist_set, alist_get, h, ih]

/-! ## C1 — the consensus double gate -/

/-- C1 counterexample: `cexResultsC1` meets quorum (approval rate 2/3 ≥
0.66) while its all-results weighted confidence is 0.6 < 0.70, so the claim
requires `approved = false`; the code gates on the approved-results mean
(0.9) and approves. -/
theorem c1_counterexample :
    (33/50 : ℚ) ≤
      ((cexResultsC1.filter (fun r => r.approved)).length : ℚ) /
        (cexResultsC1.length : ℚ) ∧
    specMean (cexResultsC1.map (fun r => r.confidence_score)) < 7/10 ∧
    (calculateConsensus cexResultsC1 "req").map (fun c => c.approved) =
      some true := by
  refine ⟨by norm_num [cexResultsC1], by norm_num [cexResultsC1, specMean], ?_⟩
  norm_num [calculateConsensus, cexResultsC1, Bool.and_eq_true,
    decide_eq_true_iff]

/-- C1 (amended): for every non-empty result set the consensus decision
exists and `approved = (approvalRate ≥ 0.66) AND (mean confidence of the
approved results ≥ 0.70)`, both boundaries inclusive and neither condition
alone sufficient; the confidence gate averages the approved results only
(0 when none is approved), not the all-results weighted confidence. -/
theorem c1_consensus_double_gate (results : List AgentVerificationResult)
    (rid : String) (h : results ≠ []) :
    ∃ c, calculateConsensus results rid = some c ∧
      c.approval_rate =
        ((results.filter (fun r => r.approved)).length : ℚ) /
          (results.length : ℚ) ∧
      c.confidence_score =
        specMean ((results.filter (fun r => r.approved)).map
          (fun r => r.confidence_score)) ∧
      (c.approved = true ↔
        (33/50 ≤ c.approval_rate ∧ 7/10 ≤ c.confidence_score)) := by
  obtain ⟨c, h1, h2, h3, h4, -⟩ := calculateConsensus_char results rid h
  exact ⟨c, h1, h2, h3, h4⟩

/-- Witness for `c1_consensus_double_gate` at `cexResultsC1`. -/
theorem c1_consensus_double_gate_witness :
    ∃ c, calculateConsensus cexResultsC1 "req" = some c ∧
      c.approval_rate =
        ((cexResultsC1.filter (fun r => r.approved)).length : ℚ) /
          (cexResultsC1.length : ℚ) ∧
      c.confidence_score =
        specMean ((cexResultsC1.filter (fun r => r.approved)).map
          (fun r => r.confidence_score)) ∧
      (c.approved = true ↔
        (33/50 ≤ c.approval_rate ∧ 7/10 ≤ c.confidence_score)) :=
  c1_consensus_double_gate cexResultsC1 "req" (by simp [cexResultsC1])

/-! ## C2 — which confidences enter the decision confidence -/

/-- C2 counterexample: on `cexResultsC2` the coordinator's consensus
confidence is 0.9 — the mean over the approved results only — while the
unweighted mean over ALL contributing results is 0.5. -/
theorem c2_counterexample :
    (calculateConsensus cexResultsC2 "req").map (fun c => c.confidence_score) =
      some (9/10) ∧
    specMean (cexResultsC2.map (fun r => r.confidence_score)) = 1/2 ∧
    (9/10 : ℚ) ≠ 1/2 := by
  refine ⟨?_, by norm_num [cexResultsC2, specMean], by norm_num⟩
  norm_num [calculateConsensus, cexResultsC2]

/-- C2 (amended): the multi-agent aggregator's decision confidence is the
unweighted mean of ALL contributing results' confidences, but the
agentverse coordinator's consensus confidence is the mean over the approved
results only (0 when none is approved). -/
theorem c2_confidence_sources :
    (∀ (rand : String → ℚ) (results : List AgentResult)
        (ctx : WorkVerificationContext), results ≠ [] →
      (aggregateVerificationResults rand results ctx).confidence =
        specMean (results.map (fun r => r.confidence))) ∧
    (∀ (results : List AgentVerificationResult) (rid : String),
        results ≠ [] →
      ∃ c, calculateConsensus results rid = some c ∧
        c.confidence_score =
          specMean ((results.filter (fun r => r.approved)).map
            (fun r => r.confidence_score))) := by
  constructor
  · intro rand results ctx h
    obtain ⟨a, as, rfl⟩ := List.exists_cons_of_ne_nil h
    simp [aggregateVerificationResults, aggregateCore, specMean]
  · intro results rid h
    obtain ⟨c, h1, -, h3, -⟩ := calculateConsensus_char results rid h
    exact ⟨c, h1, h3⟩

/-- Witness for `c2_confidence_sources` at a singleton aggregator input and
at `cexResultsC2`. -/
theorem c2_confidence_sources_witness :
    ((aggregateVerificationResults (fun _ => 1) [cexAgentResultA]
        cexCtx).confidence =
      specMean ([cexAgentResultA].map (fun r => r.confidence))) ∧
    (∃ c, calculateConsensus cexResultsC2 "req" = some c ∧
      c.confidence_score =
        specMean ((cexResultsC2.filter (fun r => r.approved)).map
          (fun r => r.confidence_score))) :=
  ⟨c2_confidence_sources.1 (fun _ => 1) [cexAgentResultA] cexCtx (by simp),
   c2_confidence_sources.2 cexResultsC2 "req" (by simp [cexResultsC2])⟩

/-! ## C3 — aggregating an empty result set -/

/-- C3 counterexample: aggregating an empty result set does not produce the
claimed `approved=false / confidence 0 / empty scores` decision — it falls
back to a fresh single assessment whose confidence is 0.4 (not 0) and whose
category-score map is non-empty. -/
theorem c3_counterexample :
    (aggregateVerificationResults (fun _ => 3/4) [] cexCtx).confidence = 2/5 ∧
    (2/5 : ℚ) ≠ 0 ∧
    (aggregateVerificationResults (fun _ => 3/4) [] cexCtx).category_scores ≠
      [] := by
  refine ⟨?_, by norm_num, ?_⟩
  · norm_num [aggregateVerificationResults, assessWorkQuality,
      reasonAboutWork, cexCtx, min_def]
  · decide

/-- C3 (amended): aggregating an empty result set never raises and does not
fail the pipeline, but instead of the claimed zero decision the multi-agent
aggregator falls back to a fresh single MeTTa assessment whose confidence
is `min(1, 0.3·|deliverables| + 0.4) ≥ 0.4`, while the agentverse
coordinator's consensus on an empty result list produces no decision at
all. -/
theorem c3_empty_aggregation (rand : String → ℚ)
    (ctx : WorkVerificationContext) (rid : String) :
    aggregateVerificationResults rand [] ctx = assessWorkQuality rand ctx ∧
    (aggregateVerificationResults rand [] ctx).confidence =
      min 1 ((ctx.deliverables.length : ℚ) * (3/10) + 2/5) ∧
    2/5 ≤ (aggregateVerificationResults rand [] ctx).confidence ∧
    calculateConsensus [] rid = none := by
  refine ⟨rfl, rfl, ?_, rfl⟩
  have hx : (0 : ℚ) ≤ (ctx.deliverables.length : ℚ) * (3/10) := by positivity
  have : (aggregateVerificationResults rand [] ctx).confidence =
      min 1 ((ctx.deliverables.length : ℚ) * (3/10) + 2/5) := rfl
  rw [this]
  exact le_min (by norm_num) (by linarith)

/-! ## C4 — consensus recomputation on late results -/

/-- C4 counterexample: in `c4State` the expected single result has arrived
and the stored decision approves; processing the late `c4LateResult` is
not discarded — it is appended (result count becomes 2) and the consensus
is recomputed and overwritten, flipping `approved` to `false`. -/
theorem c4_counterexample :
    (alist_get c4State "req").map
      (fun v => v.consensus.map (fun c => c.approved)) = some (some true) ∧
    (alist_get (processAgentResult c4State c4LateResult) "req").map
      (fun v => v.consensus.map (fun c => c.approved)) = some (some false) ∧
    (alist_get (processAgentResult c4State c4LateResult) "req").map
      (fun v => v.results.length) = some 2 := by
  refine ⟨?_, ?_, ?_⟩
  · norm_num [c4State, c4FirstResult, alist_get, calculateConsensus,
      Bool.and_eq_true, decide_eq_true_iff]
  · norm_num [c4State, c4FirstResult, c4LateResult, processAgentResult,
      alist_get, alist_set, runConsensusUpdate, calculateConsensus,
      Bool.and_eq_true, decide_eq_true_iff, decide_eq_false_iff_not]
  · norm_num [c4State, c4FirstResult, c4LateResult, processAgentResult,
      alist_get, alist_set, runConsensusUpdate, calculateConsensus]

/-- C4 (amended): a worker result naming an unknown request id is discarded
without touching the state, but a late result for a task still stored in
`active_verifications` is appended and — the received count again reaching
the expected count — the consensus is recomputed over the enlarged result
set and overwrites the stored decision (no at-most-once guard exists). -/
theorem c4_no_at_most_once :
    (∀ (st : List (String × Verification)) (r : AgentVerificationResult),
      alist_get st r.request_id = none → processAgentResult st r = st) ∧
    (∀ (st : List (String × Verification)) (r : AgentVerificationResult)
        (v : Verification), alist_get st r.request_id = some v →
      v.agents.length ≤ v.results.length →
      alist_get (processAgentResult st r) r.request_id =
        some (runConsensusUpdate { v with results := v.results ++ [r] }
          r.request_id)) ∧
    (∀ (v : Verification) (rid : String), v.results ≠ [] →
      ∃ c, calculateConsensus v.results rid = some c ∧
        runConsensusUpdate v rid =
          { v with status := "completed", consensus := some c }) := by
  refine ⟨?_, ?_, ?_⟩
  · intro st r h
    simp [processAgentResult, h]
  · intro st r v h hlen
    have hle : v.agents.length ≤ (v.results ++ [r]).length := by
      simp only [List.length_append, List.length_cons, List.length_nil]
      omega
    simp [processAgentResult, h, hle, alist_get_set_self]
    intro hcon
    omega
  · intro v rid h
    obtain ⟨a, as, hres⟩ := List.exists_cons_of_ne_nil h
    obtain ⟨c, h1, -⟩ := calculateConsensus_char v.results rid h
    exact ⟨c, h1, by simp [runConsensusUpdate, h1]⟩

/-- Witness for `c4_no_at_most_once`: the unknown-id no-op on the empty
state, and the recomputation on `c4State` with the late result. -/
theorem c4_no_at_most_once_witness :
    processAgentResult [] c4LateResult = [] ∧
    alist_get (processAgentResult c4State c4LateResult) "req" =
      some (runConsensusUpdate
        { agents := ["a1"], results := [c4FirstResult] ++ [c4LateResult]
          status := "completed"
          consensus := calculateConsensus [c4FirstResult] "req" } "req") ∧
    (∃ c, calculateConsensus [c4FirstResult] "req" = some c ∧
      runConsensusUpdate
          { agents := ["a1"], results := [c4FirstResult]
            status := "completed", consensus := none } "req" =
        { agents := ["a1"], results := [c4FirstResult]
          status := "completed", consensus := some c }) := by
  refine ⟨c4_no_at_most_once.1 [] c4LateResult (by simp [alist_get]), ?_, ?_⟩
  · have h := c4_no_at_most_once.2.1 c4State c4LateResult
      { agents := ["a1"], results := [c4FirstResult], status := "completed"
        consensus := calculateConsensus [c4FirstResult] "req" }
      (by simp [c4State, c4LateResult, alist_get]) (by simp)
    simpa [c4LateResult] using h
  · have h := c4_no_at_most_once.2.2
      { agents := ["a1"], results := [c4FirstResult], status := "completed"
        consensus := none } "req" (by simp)
    simpa using h

/-! ## C5 — per-invocation failure isolation -/

/-- The collection loop of `coordinate_agent_verifications` appends exactly
the successful outcomes to its accumulator. -/
theorem coordinate_foldl_eq (l : List (Except String AgentResult))
    (acc : List AgentResult) :
    l.foldl (fun valid r => match r with
      | .error _ => valid
      | .ok v => valid ++ [v]) acc = acc ++ l.filterMap Except.toOption := by
  induction l generalizing acc with
  | nil => simp
  | cons e t ih =>
      cases e with
      | error msg => simpa [Except.toOption] using ih acc
      | ok v => simp [Except.toOption, ih (acc ++ [v])]

/-- C5: each dispatched invocation's failure is isolated — the dispatch
returns exactly the successful results: removing one failed invocation
leaves the result set of the remaining (sibling) invocations unchanged,
and a result is returned iff some invocation succeeded with it. -/
theorem c5_failure_isolation :
    (∀ outcomes : List (Except String AgentResult),
      coordinateAgentVerifications outcomes =
        outcomes.filterMap Except.toOption) ∧
    (∀ (xs ys : List (Except String AgentResult)) (e : String),
      coordinateAgentVerifications (xs ++ Except.error e :: ys) =
        coordinateAgentVerifications (xs ++ ys)) ∧
    (∀ (outcomes : List (Except String AgentResult)) (v : AgentResult),
      v ∈ coordinateAgentVerifications outcomes ↔
        Except.ok v ∈ outcomes) := by
  have hchar : ∀ outcomes : List (Except String AgentResult),
      coordinateAgentVerifications outcomes =
        outcomes.filterMap Except.toOption := by
    intro outcomes
    simpa using coordinate_foldl_eq outcomes []
  refine ⟨hchar, ?_, ?_⟩
  · intro xs ys e
    simp [hchar, List.filterMap_append, Except.toOption]
  · intro outcomes v
    rw [hchar]
    simp only [List.mem_filterMap]
    constructor
    · rintro ⟨a, ha, hv⟩
      cases a with
      | error msg => simp [Except.toOption] at hv
      | ok w =>
          simp only [Except.toOption, Option.some.injEq] at hv
          exact hv ▸ ha
    · intro h
      exact ⟨Except.ok v, h, rfl⟩

/-! ## C7 — discovery ranking -/

/-- `insertDesc` inserts its element, permuting nothing else. -/
theorem insertDesc_perm (x : AgentProfile) (l : List AgentProfile) :
    (insertDesc x l).Perm (x :: l) := by
  induction l with
  | nil => simp [insertDesc]
  | cons y ys ih =>
      by_cases h : calculateScore y ≤ calculateScore x
      · simp [insertDesc, h]
      · simp only [insertDesc, if_neg h]
        exact ((ih.cons y).trans (List.Perm.swap x y ys)).symm.symm

/-- `rankAgents` permutes its input. -/
theorem rankAgents_perm (l : List AgentProfile) :
    (rankAgents l).Perm l := by
  induction l with
  | nil => simp [rankAgents]
  | cons a rest ih =>
      exact (insertDesc_perm a (rankAgents rest)).trans (ih.cons a)

/-- `insertDesc` preserves descending sortedness. -/
theorem insertDesc_sorted (x : AgentProfile) (l : List AgentProfile)
    (h : l.Pairwise (fun a b => calculateScore b ≤ calculateScore a)) :
    (insertDesc x l).Pairwise
      (fun a b => calculateScore b ≤ calculateScore a) := by
  induction l with
  | nil => simp [insertDesc]
  | cons y ys ih =>
      rcases List.pairwise_cons.mp h with ⟨hy, hys⟩
      by_cases hc : calculateScore y ≤ calculateScore x
      · simp only [insertDesc, if_pos hc]
        refine List.pairwise_cons.mpr ⟨?_, h⟩
        intro z hz
        rcases List.mem_cons.mp hz with hz | hz
        · exact hz ▸ hc
        · exact le_trans (hy z hz) hc
      · simp only [insertDesc, if_neg hc]
        refine List.pairwise_cons.mpr ⟨?_, ih hys⟩
        intro z hz
        rcases List.mem_cons.mp
            ((insertDesc_perm x ys).mem_iff.mp hz) with hz | hz
        · exact hz ▸ le_of_lt (lt_of_not_le hc)
        · exact hy z hz

/-- `rankAgents` output is sorted best-first by the weighted score. -/
theorem rankAgents_sorted (l : List AgentProfile) :
    (rankAgents l).Pairwise
      (fun a b => calculateScore b ≤ calculateScore a) := by
  induction l with
  | nil => simp [rankAgents]
  | cons a rest ih => exact insertDesc_sorted a (rankAgents rest) ih

/-- Inserting keeps the inserted element in front of all equal-score
elements already present. -/
theorem filter_insertDesc_self (x : AgentProfile) (l : List AgentProfile) :
    (insertDesc x l).filter
        (fun a => decide (calculateScore a = calculateScore x)) =
      x :: l.filter (fun a => decide (calculateScore a = calculateScore x)) := by
  induction l with
  | nil => simp [insertDesc]
  | cons y ys ih =>
      by_cases hc : calculateScore y ≤ calculateScore x
      · simp [insertDesc, hc]
      · have hne : ¬ (calculateScore y = calculateScore x) := by
          intro he
          exact hc (le_of_eq he)
        simp [insertDesc, hc, List.filter_cons, hne, ih]

/-- Inserting does not disturb the other equal-score classes. -/
theorem filter_insertDesc_other (x : AgentProfile) (l : List AgentProfile)
    (s : ℚ) (hne : calculateScore x ≠ s) :
    (insertDesc x l).filter (fun a => decide (calculateScore a = s)) =
      l.filter (fun a => decide (calculateScore a = s)) := by
  induction l with
  | nil => simp [insertDesc, hne]
  | cons y ys ih =>
      by_cases hc : calculateScore y ≤ calculateScore x
      · simp [insertDesc, hc, List.filter_cons, hne]
      · simp only [insertDesc, if_neg hc, List.filter_cons]
        rw [ih]

/-- Stability of the ranking sort: within every equal-score class the input
order is preserved exactly. -/
theorem rankAgents_stable (l : List AgentProfile) (s : ℚ) :
    (rankAgents l).filter (fun a => decide (calculateScore a = s)) =
      l.filter (fun a => decide (calculateScore a = s)) := by
  induction l with
  | nil => simp [rankAgents]
  | cons a rest ih =>
      by_cases ha : calculateScore a = s
      · subst ha
        simp only [rankAgents]
        rw [filter_insertDesc_self, ih]
        simp [List.filter_cons]
      · simp only [rankAgents]
        rw [filter_insertDesc_other a (rankAgents rest) s ha, ih,
          List.filter_cons]
        simp [ha]

/-- C7 counterexample: two agents with identical ranking scores whose input
order has the lexicographically larger id first stay in input order —
ties are not broken by id (and `AgentProfile` carries no load field at
all), contradicting the claimed load/lexicographic tie-break. -/
theorem c7_counterexample :
    rankAgents [cexProfileZ, cexProfileA] = [cexProfileZ, cexProfileA] ∧
    calculateScore cexProfileZ = calculateScore cexProfileA ∧
    cexProfileA.agent_id.data < cexProfileZ.agent_id.data := by
  refine ⟨?_, by norm_num [calculateScore, cexProfileZ, cexProfileA], by decide⟩
  norm_num [rankAgents, insertDesc, calculateScore, cexProfileZ, cexProfileA]

/-- C7 (amended): discovery ranks best-first by the exact weighted score
(the output is a permutation of the eligible pool, sorted descending by
`calculateScore`); equal-score ties keep the input (registry) order — the
sort is stable, with no load or id tie-break; at most `num_agents` workers
are returned; and repeated calls on an unchanged registry return the same
order. -/
theorem c7_ranking_deterministic :
    (∀ agents : List AgentProfile, (rankAgents agents).Perm agents) ∧
    (∀ agents : List AgentProfile,
      (rankAgents agents).Pairwise
        (fun a b => calculateScore b ≤ calculateScore a)) ∧
    (∀ (agents : List AgentProfile) (s : ℚ),
      (rankAgents agents).filter (fun a => decide (calculateScore a = s)) =
        agents.filter (fun a => decide (calculateScore a = s))) ∧
    (∀ (pool : List AgentProfile) (category : String) (n : ℕ),
      (discoverBestAgents pool category n).length ≤ n) ∧
    (∀ (pool : List AgentProfile) (category : String) (n : ℕ),
      discoverBestAgents pool category n =
        discoverBestAgents pool category n) :=
  ⟨rankAgents_perm, rankAgents_sorted, rankAgents_stable,
   fun _ _ n => List.length_take_le n _,
   fun _ _ _ => rfl⟩

/-! ## C8 — the load range invariant -/

/-- Members of `alist_set l k v` are old members or the new pair. -/
theorem mem_alist_set {β : Type} (l : List (String × β)) (k : String)
    (v : β) (q : String × β) (hq : q ∈ alist_set l k v) :
    q ∈ l ∨ q = (k, v) := by
  induction l with
  | nil =>
      simp [alist_set] at hq
      exact Or.inr hq
  | cons p rest ih =>
      by_cases h : p.1 = k
      · cases p with
        | mk k0 v0 =>
            simp only at h
            simp only [alist_set, if_pos h, List.mem_cons] at hq
            rcases hq with hq | hq
            · exact Or.inr (by rw [hq, h])
            · exact Or.inl (List.mem_cons_of_mem _ hq)
      · cases p with
        | mk k0 v0 =>
            simp only at h
            simp only [alist_set, if_neg h, List.mem_cons] at hq
            rcases hq with hq | hq
            · exact Or.inl (by simp [hq])
            · rcases ih hq with hq | hq
              · exact Or.inl (List.mem_cons_of_mem _ hq)
              · exact Or.inr hq

/-- `alist_set` keeps the key list duplicate-free. -/
theorem alist_set_keys_nodup {β : Type} (l : List (String × β)) (k : String)
    (v : β) (h : (akeys l).Nodup) : (akeys (alist_set l k v)).Nodup := by
  induction l with
  | nil => simp [alist_set, akeys]
  | cons p rest ih =>
      cases p with
      | mk k0 v0 =>
          simp only [akeys, List.map_cons, List.nodup_cons] at h
          by_cases hk : k0 = k
          · subst hk
            have e : alist_set ((k0, v0) :: rest) k0 v = (k0, v) :: rest := by
              simp [alist_set]
            rw [e]
            simp only [akeys, List.map_cons, List.nodup_cons]
            exact h
          · have e : alist_set ((k0, v0) :: rest) k v =
                (k0, v0) :: alist_set rest k v := by
              simp [alist_set, hk]
            rw [e]
            simp only [akeys, List.map_cons, List.nodup_cons]
            refine ⟨?_, ih h.2⟩
            intro hmem
            rcases List.mem_map.mp hmem with ⟨q, hq, hq2⟩
            rcases mem_alist_set rest k v q hq with hq' | hq'
            · exact h.1 (List.mem_map.mpr ⟨q, hq', hq2⟩)
            · apply hk
              rw [hq'] at hq2
              exact hq2.symm

/-- With duplicate-free keys, membership determines the lookup result. -/
theorem alist_get_of_mem_nodup {β : Type} (l : List (String × β))
    (k : String) (v : β) (hn : (akeys l).Nodup) (hm : (k, v) ∈ l) :
    alist_get l k = some v := by
  induction l with
  | nil => simp at hm
  | cons p rest ih =>
      cases p with
      | mk k0 v0 =>
          simp only [akeys, List.map_cons, List.nodup_cons] at hn
          rcases List.mem_cons.mp hm with hm | hm
          · injection hm with h1 h2
            subst h1
            subst h2
            simp [alist_get]
          · have hne : k0 ≠ k := by
              intro he
              exact hn.1 (he ▸ List.mem_map.mpr ⟨(k, v), hm, rfl⟩)
            simp [alist_get, hne, ih hn.2 hm]

/-- The stable minimum chosen by `pickSuitable` is an element of the
candidate list. -/
theorem pickSuitable_mem (l : List (String × AgentInfo))
    (p : String × AgentInfo) (h : pickSuitable l = some p) : p ∈ l := by
  have aux : ∀ (xs : List (String × AgentInfo)) (best : String × AgentInfo),
      xs.foldl (fun best y => if betterSuitable y best then y else best) best ∈
        best :: xs := by
    intro xs
    induction xs with
    | nil => simp
    | cons y ys ih =>
        intro best
        simp only [List.foldl_cons]
        by_cases hb : betterSuitable y best
        · rw [if_pos hb]
          rcases List.mem_cons.mp (ih y) with hm | hm
          · rw [hm]
            exact List.mem_cons_of_mem _ (List.mem_cons_self y ys)
          · exact List.mem_cons_of_mem _ (List.mem_cons_of_mem _ hm)
        · rw [if_neg hb]
          rcases List.mem_cons.mp (ih best) with hm | hm
          · rw [hm]
            exact List.mem_cons_self best (y :: ys)
          · exact List.mem_cons_of_mem _ (List.mem_cons_of_mem _ hm)
  cases l with
  | nil => simp [pickSuitable] at h
  | cons x xs =>
      simp only [pickSuitable, Option.some.injEq] at h
      exact h ▸ aux xs x

/-- One registry operation preserves duplicate-free keys and, provided any
heartbeat load is already in [0, 1], keeps every stored load in [0, 1]. -/
theorem applyOp_inv (reg : List (String × AgentInfo)) (op : RegOp)
    (hk : (akeys reg).Nodup)
    (hl : ∀ p ∈ reg, 0 ≤ p.2.load ∧ p.2.load ≤ 1)
    (hop : heartbeatLoadOk op = true) :
    (akeys (applyOp reg op)).Nodup ∧
      ∀ p ∈ applyOp reg op, 0 ≤ p.2.load ∧ p.2.load ≤ 1 := by
  cases op with
  | register address capabilities =>
      refine ⟨alist_set_keys_nodup reg address _ hk, ?_⟩
      intro p hp
      rcases mem_alist_set reg address _ p hp with hp | hp
      · exact hl p hp
      · rw [hp]
        norm_num
  | heartbeat address status load =>
      cases hget : alist_get reg address with
      | none =>
          rw [show applyOp reg (.heartbeat address status load) = reg from by
            simp [applyOp, hget]]
          exact ⟨hk, hl⟩
      | some info =>
          simp only [applyOp, hget]
          simp only [heartbeatLoadOk, Bool.and_eq_true, decide_eq_true_iff]
            at hop
          refine ⟨alist_set_keys_nodup reg address _ hk, ?_⟩
          intro p hp
          rcases mem_alist_set reg address _ p hp with hp | hp
          · exact hl p hp
          · rw [hp]
            exact hop
  | assign request_type =>
      cases hfind : findSuitableAgent reg request_type with
      | none =>
          rw [show applyOp reg (.assign request_type) = reg from by
            simp [applyOp, hfind]]
          exact ⟨hk, hl⟩
      | some address =>
          have hfind2 := hfind
          rw [findSuitableAgent, Option.map_eq_some'] at hfind2
          obtain ⟨q, hpick, haddr⟩ := hfind2
          have hqmem := pickSuitable_mem _ q hpick
          have hqfil := List.mem_filter.mp hqmem
          have hsuit := hqfil.2
          simp only [suitableFor, Bool.and_eq_true, decide_eq_true_iff]
            at hsuit
          have hget : alist_get reg address = some q.2 := by
            rw [← haddr]
            exact alist_get_of_mem_nodup reg q.1 q.2 hk (by simpa using hqfil.1)
          simp only [applyOp, hfind, hget]
          refine ⟨alist_set_keys_nodup reg address _ hk, ?_⟩
          intro p hp
          rcases mem_alist_set reg address _ p hp with hp | hp
          · exact hl p hp
          · have hq0 : 0 ≤ q.2.load := (hl q hqfil.1).1
            have hq8 : q.2.load < 4/5 := hsuit.2
            rw [hp]
            refine ⟨by simp only; linarith, by simp only; linarith⟩

/-- The invariant propagated along any operation sequence. -/
theorem applyOps_inv_aux (ops : List RegOp) :
    ∀ reg : List (String × AgentInfo), (akeys reg).Nodup →
      (∀ p ∈ reg, 0 ≤ p.2.load ∧ p.2.load ≤ 1) →
      (∀ op ∈ ops, heartbeatLoadOk op = true) →
      (akeys (ops.foldl applyOp reg)).Nodup ∧
        ∀ p ∈ ops.foldl applyOp reg, 0 ≤ p.2.load ∧ p.2.load ≤ 1 := by
  induction ops with
  | nil => exact fun reg hk hl _ => ⟨hk, hl⟩
  | cons op rest ih =>
      intro reg hk hl hops
      have step := applyOp_inv reg op hk hl (hops op (List.mem_cons_self op rest))
      simpa using ih (applyOp reg op) step.1 step.2
        (fun o ho => hops o (List.mem_cons_of_mem op ho))

/-- C8 counterexample: a registered worker heartbeating with load 1.5 has
that load stored verbatim — the code performs no clamping, so the claimed
[0, 1] invariant fails under unvalidated heartbeat loads. -/
theorem c8_counterexample :
    (alist_get (applyOps cexOpsC8) "w").map (fun i => i.load) =
      some (3/2) ∧ ¬ ((3/2 : ℚ) ≤ 1) := by
  constructor
  · simp [applyOps, cexOpsC8, applyOp, alist_set, alist_get]
  · norm_num

/-- C8 (amended): provided every heartbeat reports a load already in
[0, 1] (the code never clamps), every stored load stays in [0, 1] under any
sequence of registrations, heartbeats and assignment increments —
registration stores 0, and assignments add 0.1 only to a worker found with
load < 0.8; a heartbeat naming an unregistered worker id leaves the
registry unchanged and does not crash. -/
theorem c8_load_invariant :
    (∀ ops : List RegOp, ops.all heartbeatLoadOk = true →
      loadsInRange (applyOps ops) = true) ∧
    (∀ (reg : List (String × AgentInfo)) (address status : String) (load : ℚ),
      alist_get reg address = none →
      applyOp reg (.heartbeat address status load) = reg) := by
  constructor
  · intro ops hops
    have h := applyOps_inv_aux ops [] (by simp [akeys]) (by simp)
      (by simpa [List.all_eq_true] using hops)
    simp only [loadsInRange, List.all_eq_true, Bool.and_eq_true,
      decide_eq_true_iff]
    exact fun p hp => h.2 p hp
  · intro reg address status load h
    simp [applyOp, h]

/-- Witness for `c8_load_invariant` on `c8WitnessOps` and the empty
registry. -/
theorem c8_load_invariant_witness :
    c8WitnessOps.all heartbeatLoadOk = true ∧
    loadsInRange (applyOps c8WitnessOps) = true ∧
    applyOp [] (.heartbeat "x" "active" 1) = [] := by
  have hops : c8WitnessOps.all heartbeatLoadOk = true := by
    norm_num [c8WitnessOps, heartbeatLoadOk]
  exact ⟨hops, c8_load_invariant.1 c8WitnessOps hops,
    c8_load_invariant.2 [] "x" "active" 1 rfl⟩

/-! ## C9 — staged payment events -/

/-- `send_message` on an existing conversation appends to its log. -/
theorem sendMessage_known (convs : List (String × Conversation))
    (conv : Conversation) (m : ChatMessage) (cid : String)
    (hcid : m.conversation_id = cid) (h : alist_get convs cid = some conv) :
    sendMessage convs m = alist_set convs cid
      { conv with messages := conv.messages ++ [m] } := by
  simp [sendMessage, hcid, h]

/-- Message-log effect of `handle_agent_assessment` on an existing
conversation: the assessment summary is appended, followed by the 20%
partial-payment trigger exactly when the assessment is approved. -/
theorem handleAgentAssessment_msgs (agent_id : String)
    (convs : List (String × Conversation)) (conv : Conversation)
    (assessment : WQADict) (cid : String)
    (h : alist_get convs cid = some conv) :
    alist_get (handleAgentAssessment agent_id convs assessment cid) cid =
      some { conv with messages := conv.messages ++
        assessmentMessage cid (clientOf agent_id conv) ::
          (if assessment.approved then
            [partialPaymentMessage cid (clientOf agent_id conv)] else []) } := by
  have e1 := sendMessage_known convs conv
    (assessmentMessage cid (clientOf agent_id conv)) cid rfl h
  have hget1 : alist_get
      (sendMessage convs (assessmentMessage cid (clientOf agent_id conv)))
      cid = some { conv with messages :=
        conv.messages ++ [assessmentMessage cid (clientOf agent_id conv)] } := by
    rw [e1]
    exact alist_get_set_self _ _ _
  by_cases happ : assessment.approved
  · have e2 := sendMessage_known _
      ({ conv with messages :=
          conv.messages ++ [assessmentMessage cid (clientOf agent_id conv)] })
      (partialPaymentMessage cid (clientOf agent_id
        ({ conv with messages :=
          conv.messages ++ [assessmentMessage cid (clientOf agent_id conv)] })))
      cid rfl hget1
    simp only [handleAgentAssessment, h, happ, if_true, hget1, e2]
    rw [alist_get_set_self]
    simp [clientOf]
  · simp only [handleAgentAssessment, h, happ, if_false, Bool.false_eq_true,
      hget1]

/-- Message-log effect of `handle_client_feedback` on an existing
conversation: approval appends the 80% full-payment notification, rejection
appends the revision request. -/
theorem handleClientFeedback_msgs (agent_id : String)
    (convs : List (String × Conversation)) (conv : Conversation)
    (feedback : ClientFeedback) (cid : String)
    (h : alist_get convs cid = some conv) :
    alist_get (handleClientFeedback agent_id convs feedback cid) cid =
      some { conv with messages := conv.messages ++
        (if feedback.approved then
          [fullPaymentMessage cid (clientOf agent_id conv)]
         else [revisionMessage cid (clientOf agent_id conv)]) } := by
  by_cases happ : feedback.approved
  · have e := sendMessage_known convs conv
      (fullPaymentMessage cid (clientOf agent_id conv)) cid rfl h
    simp only [handleClientFeedback, h, happ, if_true, e]
    rw [alist_get_set_self]
  · have e := sendMessage_known convs conv
      (revisionMessage cid (clientOf agent_id conv)) cid rfl h
    simp only [handleClientFeedback, h, happ, if_false, Bool.false_eq_true, e]
    rw [alist_get_set_self]

/-- Appending messages adds their matching count. -/
theorem countMsgs_append (p : ChatMessage → Bool) (conv : Conversation)
    (l : List ChatMessage) :
    countMsgs p { conv with messages := conv.messages ++ l } =
      countMsgs p conv + (l.filter p).length := by
  simp [countMsgs, List.filter_append]

/-- C9: when the consensus assessment approves, exactly one 20%
`agent_approval` partial-payment event is appended (and none otherwise);
approving human feedback then appends exactly one 80% `client_approval`
full-payment event, while rejecting feedback appends a revision request
instead and — when no stage approved — no payment event at all. -/
theorem c9_staged_payments (agent_id : String)
    (convs : List (String × Conversation)) (conv : Conversation)
    (assessment : WQADict) (feedback : ClientFeedback) (cid : String)
    (h : alist_get convs cid = some conv) :
    ((alist_get (handleAgentAssessment agent_id convs assessment cid)
        cid).map (countMsgs isPartialPaymentMsg) =
      some (countMsgs isPartialPaymentMsg conv +
        (if assessment.approved then 1 else 0))) ∧
    ((alist_get (handleAgentAssessment agent_id convs assessment cid)
        cid).map (countMsgs isFullPaymentMsg) =
      some (countMsgs isFullPaymentMsg conv)) ∧
    ((alist_get (handleClientFeedback agent_id
        (handleAgentAssessment agent_id convs assessment cid) feedback
        cid) cid).map (countMsgs isFullPaymentMsg) =
      some (countMsgs isFullPaymentMsg conv +
        (if feedback.approved then 1 else 0))) ∧
    ((alist_get (handleClientFeedback agent_id
        (handleAgentAssessment agent_id convs assessment cid) feedback
        cid) cid).map (countMsgs isRevisionMsg) =
      some (countMsgs isRevisionMsg conv +
        (if feedback.approved then 0 else 1))) ∧
    (assessment.approved = false → feedback.approved = false →
      (alist_get (handleClientFeedback agent_id
          (handleAgentAssessment agent_id convs assessment cid) feedback
          cid) cid).map (countMsgs isPaymentMsg) =
        some (countMsgs isPaymentMsg conv)) := by
  have h1 := handleAgentAssessment_msgs agent_id convs conv assessment cid h
  have h2 := handleClientFeedback_msgs agent_id
    (handleAgentAssessment agent_id convs assessment cid) _ feedback cid h1
  refine ⟨?_, ?_, ?_, ?_, ?_⟩
  · rw [h1]
    cases happ : assessment.approved <;>
      simp [happ, countMsgs_append, isPartialPaymentMsg, assessmentMessage,
        partialPaymentMessage]
  · rw [h1]
    cases happ : assessment.approved <;>
      simp [happ, countMsgs_append, isFullPaymentMsg, assessmentMessage,
        partialPaymentMessage]
  · rw [h2]
    cases happ : assessment.approved <;> cases hfb : feedback.approved <;>
      simp [happ, hfb, countMsgs_append, isFullPaymentMsg, assessmentMessage,
        partialPaymentMessage, fullPaymentMessage, revisionMessage]
  · rw [h2]
    cases happ : assessment.approved <;> cases hfb : feedback.approved <;>
      simp [happ, hfb, countMsgs_append, isRevisionMsg, assessmentMessage,
        partialPaymentMessage, fullPaymentMessage, revisionMessage]
  · intro happ hfb
    rw [h2]
    simp [happ, hfb, countMsgs_append, isPaymentMsg, assessmentMessage,
      revisionMessage]

/-- Witness for `c9_staged_payments` on a fresh conversation with an
approved assessment and rejecting feedback. -/
theorem c9_staged_payments_witness :
    ((alist_get (handleAgentAssessment "agent" c9Convs c9Assessment "c1")
        "c1").map (countMsgs isPartialPaymentMsg) =
      some (countMsgs isPartialPaymentMsg c9Conv +
        (if c9Assessment.approved then 1 else 0))) ∧
    ((alist_get (handleAgentAssessment "agent" c9Convs c9Assessment "c1")
        "c1").map (countMsgs isFullPaymentMsg) =
      some (countMsgs isFullPaymentMsg c9Conv)) ∧
    ((alist_get (handleClientFeedback "agent"
        (handleAgentAssessment "agent" c9Convs c9Assessment "c1") c9Feedback
        "c1") "c1").map (countMsgs isFullPaymentMsg) =
      some (countMsgs isFullPaymentMsg c9Conv +
        (if c9Feedback.approved then 1 else 0))) ∧
    ((alist_get (handleClientFeedback "agent"
        (handleAgentAssessment "agent" c9Convs c9Assessment "c1") c9Feedback
        "c1") "c1").map (countMsgs isRevisionMsg) =
      some (countMsgs isRevisionMsg c9Conv +
        (if c9Feedback.approved then 0 else 1))) ∧
    (c9Assessment.approved = false → c9Feedback.approved = false →
      (alist_get (handleClientFeedback "agent"
          (handleAgentAssessment "agent" c9Convs c9Assessment "c1") c9Feedback
          "c1") "c1").map (countMsgs isPaymentMsg) =
        some (countMsgs isPaymentMsg c9Conv)) :=
  c9_staged_payments "agent" c9Convs c9Conv c9Assessment c9Feedback "c1"
    (by simp [c9Convs, alist_get])

/-! ## C10 — confidence floor and unreachable zero-weight branch -/

/-- C10: the scoring black box returns confidence
`min(1, 0.3·|deliverables| + 0.4) ≥ 0.4`; the per-agent specialty bonus
keeps each result's confidence within [0.4, 1]; hence every non-empty
result set produced by the pipeline has strictly positive total weight, so
the aggregator's zero-total-weight branch is unreachable. -/
theorem c10_confidence_floor :
    (∀ (rand : String → ℚ) (category : String) (deliverables : List String)
        (description : String),
      (reasonAboutWork rand category deliverables description).confidence =
        min 1 ((deliverables.length : ℚ) * (3/10) + 2/5) ∧
      2/5 ≤ (reasonAboutWork rand category deliverables
        description).confidence) ∧
    (∀ (rand : String → ℚ) (agent : AgentProfile)
        (ctx : WorkVerificationContext),
      2/5 ≤ (verifyWithSingleAgent rand agent ctx).confidence ∧
      (verifyWithSingleAgent rand agent ctx).confidence ≤ 1) ∧
    (∀ (rand : String → ℚ) (agents : List AgentProfile)
        (ctx : WorkVerificationContext), agents ≠ [] →
      0 < totalWeight ctx.category
        (agents.map (fun a => verifyWithSingleAgent rand a ctx))) := by
  have hfloor : ∀ (rand : String → ℚ) (category : String)
      (deliverables : List String) (description : String),
      2/5 ≤ (reasonAboutWork rand category deliverables
        description).confidence := by
    intro rand category deliverables description
    have hx : (0 : ℚ) ≤ (deliverables.length : ℚ) * (3/10) := by positivity
    have e : (reasonAboutWork rand category deliverables
        description).confidence =
        min 1 ((deliverables.length : ℚ) * (3/10) + 2/5) := rfl
    rw [e]
    exact le_min (by norm_num) (by linarith)
  have hagent : ∀ (rand : String → ℚ) (agent : AgentProfile)
      (ctx : WorkVerificationContext),
      2/5 ≤ (verifyWithSingleAgent rand agent ctx).confidence ∧
      (verifyWithSingleAgent rand agent ctx).confidence ≤ 1 := by
    intro rand agent ctx
    have e : (verifyWithSingleAgent rand agent ctx).confidence =
        min 1 ((assessWorkQuality rand ctx).confidence +
          (if matchesSpecialty agent.specialty ctx.category then
            (1 : ℚ)/20 else 0)) := rfl
    constructor
    · rw [e]
      refine le_min (by norm_num) ?_
      have h1 := hfloor rand ctx.category ctx.deliverables ctx.description
      have h2 : (0 : ℚ) ≤
          (if matchesSpecialty agent.specialty ctx.category then
            (1 : ℚ)/20 else 0) := by
        split <;> norm_num
      have e2 : (assessWorkQuality rand ctx).confidence =
          (reasonAboutWork rand ctx.category ctx.deliverables
            ctx.description).confidence := rfl
      rw [e2]
      linarith
    · rw [e]
      exact min_le_left _ _
  refine ⟨fun rand category deliverables description =>
    ⟨rfl, hfloor rand category deliverables description⟩, hagent, ?_⟩
  intro rand agents ctx hne
  have hall : ∀ x ∈ (agents.map
      (fun a => verifyWithSingleAgent rand a ctx)).map
        (resultWeight ctx.category), 0 < x := by
    intro x hx
    rcases List.mem_map.mp hx with ⟨r, hr, hrx⟩
    rcases List.mem_map.mp hr with ⟨a, -, har⟩
    have hconf := (hagent rand a ctx).1
    have hfac : (1 : ℚ) ≤
        (if matchesSpecialty r.specialty ctx.category then (6 : ℚ)/5
          else 1) := by
      split <;> norm_num
    have : 0 < r.confidence * (if matchesSpecialty r.specialty ctx.category
        then (6 : ℚ)/5 else 1) := by
      have hc : 0 < r.confidence := by
        rw [← har] at *
        linarith
      nlinarith
    rw [← hrx]
    exact this
  have hmapne : (agents.map (fun a => verifyWithSingleAgent rand a ctx)).map
      (resultWeight ctx.category) ≠ [] := by
    simp [hne]
  exact List.sum_pos _ hall hmapne

/-- Witness for `c10_confidence_floor` at concrete inputs. -/
theorem c10_confidence_floor_witness :
    ((reasonAboutWork (fun _ => 1) "x" [] "").confidence =
        min 1 ((([] : List String).length : ℚ) * (3/10) + 2/5) ∧
      2/5 ≤ (reasonAboutWork (fun _ => 1) "x" [] "").confidence) ∧
    (2/5 ≤ (verifyWithSingleAgent (fun _ => 1) cexProfileZ cexCtx).confidence ∧
      (verifyWithSingleAgent (fun _ => 1) cexProfileZ cexCtx).confidence ≤ 1) ∧
    0 < totalWeight cexCtx.category
      ([cexProfileZ].map (fun a => verifyWithSingleAgent (fun _ => 1) a cexCtx)) :=
  ⟨c10_confidence_floor.1 (fun _ => 1) "x" [] "",
   c10_confidence_floor.2.1 (fun _ => 1) cexProfileZ cexCtx,
   c10_confidence_floor.2.2 (fun _ => 1) [cexProfileZ] cexCtx (by simp)⟩

/-! ## C6 — aggregation as a function of the result set -/

/-- Effect of one `weighted_scores[c] += v` step on a lookup. -/
theorem addScore_getD (acc : List (String × ℚ)) (c : String) (v : ℚ)
    (c' : String) :
    alist_getD (addScore acc c v) c' =
      alist_getD acc c' + if c' = c then v else 0 := by
  induction acc with
  | nil =>
      by_cases h : c' = c
      · simp [addScore, alist_getD, alist_get, h]
      · simp [addScore, alist_getD, alist_get, h, Ne.symm h]
  | cons p rest ih =>
      cases p with
      | mk k x =>
          by_cases hk : k = c
          · by_cases h' : k = c'
            · simp [addScore, alist_getD, alist_get, hk, h', hk ▸ h'.symm]
            · have hne : ¬ (c' = c) := fun he => h' (hk.trans he.symm)
              have hne2 : ¬ (c = c') := fun he => hne he.symm
              simp [addScore, alist_getD, alist_get, hk, h', hne, hne2]
          · by_cases h' : k = c'
            · have hne : ¬ (c' = c) := fun he => hk (h'.trans he)
              simp [addScore, alist_getD, alist_get, hk, h', hne]
            · simpa [addScore, alist_getD, alist_get, hk, h'] using ih

/-- One accumulation step adds its value to the value total. -/
theorem addScore_valsSum (acc : List (String × ℚ)) (c : String) (v : ℚ) :
    valsSum (addScore acc c v) = valsSum acc + v := by
  induction acc with
  | nil => simp [addScore, valsSum]
  | cons p rest ih =>
      cases p with
      | mk k x =>
          by_cases hk : k = c
          · simp [addScore, valsSum, hk]
            ring
          · simp only [addScore, if_neg hk, valsSum, List.map_cons,
              List.sum_cons] at ih ⊢
            rw [ih]
            ring

/-- One accumulation step adds exactly its key to the key set. -/
theorem addScore_akeys_mem (acc : List (String × ℚ)) (c : String) (v : ℚ)
    (x : String) :
    x ∈ akeys (addScore acc c v) ↔ x ∈ akeys acc ∨ x = c := by
  induction acc with
  | nil => simp [addScore, akeys]
  | cons p rest ih =>
      cases p with
      | mk k y =>
          by_cases hk : k = c
          · subst hk
            have e : addScore ((k, y) :: rest) k v = (k, y + v) :: rest := by
              simp [addScore]
            rw [e]
            simp only [akeys, List.map_cons, List.mem_cons]
            constructor
            · intro h
              rcases h with h | h
              · exact Or.inl (Or.inl h)
              · exact Or.inl (Or.inr h)
            · intro h
              rcases h with (h | h) | h
              · exact Or.inl h
              · exact Or.inr h
              · exact Or.inl h
          · have e : addScore ((k, y) :: rest) c v =
                (k, y) :: addScore rest c v := by
              simp [addScore, hk]
            rw [e]
            have ih' : x ∈ akeys (addScore rest c v) ↔
                x ∈ akeys rest ∨ x = c := ih
            simp only [akeys, List.map_cons, List.mem_cons]
            rw [show (x ∈ List.map Prod.fst (addScore rest c v)) =
              (x ∈ akeys (addScore rest c v)) from rfl, ih']
            simp [akeys, or_assoc]

/-- Accumulation keeps the key list duplicate-free. -/
theorem addScore_akeys_nodup (acc : List (String × ℚ)) (c : String) (v : ℚ)
    (h : (akeys acc).Nodup) : (akeys (addScore acc c v)).Nodup := by
  induction acc with
  | nil => simp [addScore, akeys]
  | cons p rest ih =>
      cases p with
      | mk k y =>
          simp only [akeys, List.map_cons, List.nodup_cons] at h
          by_cases hk : k = c
          · subst hk
            have e : addScore ((k, y) :: rest) k v = (k, y + v) :: rest := by
              simp [addScore]
            rw [e]
            simp only [akeys, List.map_cons, List.nodup_cons]
            exact h
          · have e : addScore ((k, y) :: rest) c v =
                (k, y) :: addScore rest c v := by
              simp [addScore, hk]
            rw [e]
            simp only [akeys, List.map_cons, List.nodup_cons]
            refine ⟨?_, ih h.2⟩
            intro hmem
            rw [show (k ∈ List.map Prod.fst (addScore rest c v)) =
              (k ∈ akeys (addScore rest c v)) from rfl,
              addScore_akeys_mem] at hmem
            rcases hmem with hmem | hmem
            · exact h.1 hmem
            · exact hk hmem

/-- Lookup after accumulating one result's score list: the old value plus
the weighted sum of the values this result attached to the key. -/
theorem accumScoresW_getD (scores : List (String × ℚ)) :
    ∀ (acc : List (String × ℚ)) (w : ℚ) (c : String),
      alist_getD (accumScoresW acc scores w) c =
        alist_getD acc c + w * sumIf scores c := by
  induction scores with
  | nil =>
      intro acc w c
      simp [accumScoresW, sumIf]
  | cons p ps ih =>
      intro acc w c
      have estep : accumScoresW acc (p :: ps) w =
          accumScoresW (addScore acc p.1 (p.2 * w)) ps w := rfl
      rw [estep, ih, addScore_getD]
      have esum : sumIf (p :: ps) c =
          (if p.1 = c then p.2 else 0) + sumIf ps c := by
        simp [sumIf]
      rw [esum]
      by_cases h : c = p.1
      · simp [h]
        ring
      · have h2 : ¬ (p.1 = c) := fun he => h he.symm
        rw [if_neg h, if_neg h2]
        ring

/-- Value total after accumulating one result's score list. -/
theorem accumScoresW_valsSum (scores : List (String × ℚ)) :
    ∀ (acc : List (String × ℚ)) (w : ℚ),
      valsSum (accumScoresW acc scores w) =
        valsSum acc + w * valsSum scores := by
  induction scores with
  | nil =>
      intro acc w
      simp [accumScoresW, valsSum]
  | cons p ps ih =>
      intro acc w
      have estep : accumScoresW acc (p :: ps) w =
          accumScoresW (addScore acc p.1 (p.2 * w)) ps w := rfl
      rw [estep, ih, addScore_valsSum]
      have : valsSum (p :: ps) = p.2 + valsSum ps := by simp [valsSum]
      rw [this]
      ring

/-- Keys after accumulating one result's score list. -/
theorem accumScoresW_akeys_mem (scores : List (String × ℚ)) :
    ∀ (acc : List (String × ℚ)) (w : ℚ) (x : String),
      x ∈ akeys (accumScoresW acc scores w) ↔
        x ∈ akeys acc ∨ x ∈ akeys scores := by
  induction scores with
  | nil =>
      intro acc w x
      simp [accumScoresW, akeys]
  | cons p ps ih =>
      intro acc w x
      have estep : accumScoresW acc (p :: ps) w =
          accumScoresW (addScore acc p.1 (p.2 * w)) ps w := rfl
      rw [estep, ih, addScore_akeys_mem]
      have : akeys (p :: ps) = p.1 :: akeys ps := by simp [akeys]
      rw [this]
      simp [List.mem_cons, or_assoc]

/-- Accumulating a score list keeps keys duplicate-free. -/
theorem accumScoresW_akeys_nodup (scores : List (String × ℚ)) :
    ∀ (acc : List (String × ℚ)) (w : ℚ), (akeys acc).Nodup →
      (akeys (accumScoresW acc scores w)).Nodup := by
  induction scores with
  | nil =>
      intro acc w h
      simpa [accumScoresW] using h
  | cons p ps ih =>
      intro acc w h
      exact ih _ w (addScore_akeys_nodup acc p.1 (p.2 * w) h)

/-- Lookup in the fully accumulated `weighted_scores`: the weighted sum of
every result's contribution to the key, starting from any accumulator. -/
theorem accumWeighted_foldl_getD (category : String)
    (results : List AgentResult) :
    ∀ (acc : List (String × ℚ)) (c : String),
      alist_getD (results.foldl (fun acc r => accumScoresW acc
        r.assessment.category_scores (resultWeight category r)) acc) c =
      alist_getD acc c + (results.map (fun r => resultWeight category r *
        sumIf r.assessment.category_scores c)).sum := by
  induction results with
  | nil =>
      intro acc c
      simp
  | cons r rs ih =>
      intro acc c
      simp only [List.foldl_cons, List.map_cons, List.sum_cons]
      rw [ih, accumScoresW_getD]
      ring

/-- Value total of the fully accumulated `weighted_scores`. -/
theorem accumWeighted_foldl_valsSum (category : String)
    (results : List AgentResult) :
    ∀ acc : List (String × ℚ),
      valsSum (results.foldl (fun acc r => accumScoresW acc
        r.assessment.category_scores (resultWeight category r)) acc) =
      valsSum acc + (results.map (fun r => resultWeight category r *
        valsSum r.assessment.category_scores)).sum := by
  induction results with
  | nil =>
      intro acc
      simp
  | cons r rs ih =>
      intro acc
      simp only [List.foldl_cons, List.map_cons, List.sum_cons]
      rw [ih, accumScoresW_valsSum]
      ring

/-- Keys of the fully accumulated `weighted_scores`. -/
theorem accumWeighted_foldl_akeys_mem (category : String)
    (results : List AgentResult) :
    ∀ (acc : List (String × ℚ)) (x : String),
      (x ∈ akeys (results.foldl (fun acc r => accumScoresW acc
        r.assessment.category_scores (resultWeight category r)) acc)) ↔
      (x ∈ akeys acc ∨
        ∃ r ∈ results, x ∈ akeys r.assessment.category_scores) := by
  induction results with
  | nil =>
      intro acc x
      simp
  | cons r rs ih =>
      intro acc x
      simp only [List.foldl_cons]
      rw [ih, accumScoresW_akeys_mem]
      constructor
      · rintro ((h | h) | ⟨q, hq, hx⟩)
        · exact Or.inl h
        · exact Or.inr ⟨r, List.mem_cons_self r rs, h⟩
        · exact Or.inr ⟨q, List.mem_cons_of_mem r hq, hx⟩
      · rintro (h | ⟨q, hq, hx⟩)
        · exact Or.inl (Or.inl h)
        · rcases List.mem_cons.mp hq with hq | hq
          · exact Or.inl (Or.inr (hq ▸ hx))
          · exact Or.inr ⟨q, hq, hx⟩

/-- The accumulated `weighted_scores` has duplicate-free keys. -/
theorem accumWeighted_foldl_akeys_nodup (category : String)
    (results : List AgentResult) :
    ∀ acc : List (String × ℚ), (akeys acc).Nodup →
      (akeys (results.foldl (fun acc r => accumScoresW acc
        r.assessment.category_scores (resultWeight category r)) acc)).Nodup := by
  induction results with
  | nil =>
      intro acc h
      simpa using h
  | cons r rs ih =>
      intro acc h
      exact ih _ (accumScoresW_akeys_nodup _ acc _ h)

/-- `weighted_scores` lookup as a sum over the contributing results. -/
theorem accumWeighted_getD (category : String) (results : List AgentResult)
    (c : String) :
    alist_getD (accumWeighted category results) c =
      (results.map (fun r => resultWeight category r *
        sumIf r.assessment.category_scores c)).sum := by
  have h := accumWeighted_foldl_getD category results [] c
  simpa [accumWeighted, alist_getD, alist_get] using h

/-- `weighted_scores` value total as a sum over the contributing results. -/
theorem accumWeighted_valsSum (category : String)
    (results : List AgentResult) :
    valsSum (accumWeighted category results) =
      (results.map (fun r => resultWeight category r *
        valsSum r.assessment.category_scores)).sum := by
  have h := accumWeighted_foldl_valsSum category results []
  simpa [accumWeighted, valsSum] using h

/-- `weighted_scores` keys: exactly the criteria some result scored. -/
theorem accumWeighted_akeys_mem (category : String)
    (results : List AgentResult) (x : String) :
    x ∈ akeys (accumWeighted category results) ↔
      ∃ r ∈ results, x ∈ akeys r.assessment.category_scores := by
  have h := accumWeighted_foldl_akeys_mem category results [] x
  simpa [accumWeighted, akeys] using h

/-- `weighted_scores` keys are duplicate-free. -/
theorem accumWeighted_akeys_nodup (category : String)
    (results : List AgentResult) :
    (akeys (accumWeighted category results)).Nodup := by
  have h := accumWeighted_foldl_akeys_nodup category results []
    (by simp [akeys])
  simpa [accumWeighted] using h

/-- Lookup after the division by total weight (0 maps to 0). -/
theorem alist_getD_map_div (l : List (String × ℚ)) (t : ℚ) (c : String) :
    alist_getD (l.map (fun p => (p.1, p.2 / t))) c = alist_getD l c / t := by
  induction l with
  | nil => simp [alist_getD, alist_get]
  | cons p rest ih =>
      cases p with
      | mk k x =>
          by_cases hk : k = c
          · simp [alist_getD, alist_get, hk]
          · simpa [alist_getD, alist_get, hk] using ih

/-- Value total after the division by total weight. -/
theorem valsSum_map_div (l : List (String × ℚ)) (t : ℚ) :
    valsSum (l.map (fun p => (p.1, p.2 / t))) = valsSum l / t := by
  induction l with
  | nil => simp [valsSum]
  | cons p rest ih =>
      simp only [valsSum, List.map_cons, List.sum_cons] at ih ⊢
      rw [ih, add_div]

/-- `pyDedup` preserves exactly the underlying set of elements. -/
theorem pyDedup_mem (l : List String) (x : String) :
    x ∈ pyDedup l ↔ x ∈ l := by
  have aux : ∀ (l : List String) (acc : List String),
      (x ∈ l.foldl (fun acc y => if y ∈ acc then acc else acc ++ [y]) acc) ↔
        x ∈ acc ∨ x ∈ l := by
    intro l
    induction l with
    | nil => intro acc; simp
    | cons y ys ih =>
        intro acc
        simp only [List.foldl_cons]
        rw [ih]
        by_cases hy : y ∈ acc
        · simp only [if_pos hy]
          constructor
          · rintro (h | h)
            · exact Or.inl h
            · exact Or.inr (List.mem_cons_of_mem y h)
          · rintro (h | h)
            · exact Or.inl h
            · rcases List.mem_cons.mp h with h | h
              · exact Or.inl (h ▸ hy)
              · exact Or.inr h
        · simp only [if_neg hy, List.mem_append, List.mem_singleton]
          constructor
          · rintro ((h | h) | h)
            · exact Or.inl h
            · exact Or.inr (List.mem_cons.mpr (Or.inl h))
            · exact Or.inr (List.mem_cons_of_mem y h)
          · rintro (h | h)
            · exact Or.inl (Or.inl h)
            · rcases List.mem_cons.mp h with h | h
              · exact Or.inl (Or.inr h)
              · exact Or.inr h
  simpa [pyDedup] using aux l []

/-- Membership in the concatenated recommendation lists. -/
theorem allRecommendations_mem (results : List AgentResult) (x : String) :
    x ∈ allRecommendations results ↔
      ∃ r ∈ results, x ∈ r.assessment.recommendations := by
  have aux : ∀ (l : List AgentResult) (acc : List String),
      (x ∈ l.foldl (fun acc r => acc ++ r.assessment.recommendations) acc) ↔
        x ∈ acc ∨ ∃ r ∈ l, x ∈ r.assessment.recommendations := by
    intro l
    induction l with
    | nil => intro acc; simp
    | cons r rs ih =>
        intro acc
        simp only [List.foldl_cons]
        rw [ih]
        simp only [List.mem_append]
        constructor
        · rintro ((h | h) | ⟨q, hq, hx⟩)
          · exact Or.inl h
          · exact Or.inr ⟨r, List.mem_cons_self r rs, h⟩
          · exact Or.inr ⟨q, List.mem_cons_of_mem r hq, hx⟩
        · rintro (h | ⟨q, hq, hx⟩)
          · exact Or.inl (Or.inl h)
          · rcases List.mem_cons.mp hq with hq | hq
            · exact Or.inl (Or.inr (hq ▸ hx))
            · exact Or.inr ⟨q, hq, hx⟩
  simpa [allRecommendations] using aux results []

/-- Lists of equal length are simultaneously empty. -/
theorem isEmpty_eq_of_length_eq {α β : Type} (l1 : List α) (l2 : List β)
    (h : l1.length = l2.length) : l1.isEmpty = l2.isEmpty := by
  cases l1 <;> cases l2 <;> simp at h ⊢

/-- Permuting the results permutes nothing observable about the accumulated
score count. -/
theorem accumWeighted_length_perm (category : String)
    {results results' : List AgentResult} (h : results.Perm results') :
    (accumWeighted category results).length =
      (accumWeighted category results').length := by
  have e1 : (akeys (accumWeighted category results)).toFinset =
      (akeys (accumWeighted category results')).toFinset := by
    ext a
    simp only [List.mem_toFinset, accumWeighted_akeys_mem]
    constructor
    · rintro ⟨r, hr, ha⟩
      exact ⟨r, h.mem_iff.mp hr, ha⟩
    · rintro ⟨r, hr, ha⟩
      exact ⟨r, h.mem_iff.mpr hr, ha⟩
  have n1 := accumWeighted_akeys_nodup category results
  have n2 := accumWeighted_akeys_nodup category results'
  have c1 := List.toFinset_card_of_nodup n1
  have c2 := List.toFinset_card_of_nodup n2
  have hl1 : (accumWeighted category results).length =
      (akeys (accumWeighted category results)).length := by
    simp [akeys]
  have hl2 : (accumWeighted category results').length =
      (akeys (accumWeighted category results')).length := by
    simp [akeys]
  rw [hl1, hl2, ← c1, ← c2, e1]

/-- C6 (amended): on every NON-EMPTY result set the aggregation ignores the
random source and depends on the results only as a multiset: under any
permutation of the results (and any random environments) the decision's
confidence, overall score, reasoning path, category-score map (as a lookup
function), recommendation set, and approval flag at every threshold all
coincide — only the insertion order of the category-score list and of the
deduplicated recommendation list follows arrival order. -/
theorem c6_aggregation_invariance (rand rand' : String → ℚ)
    (results results' : List AgentResult) (ctx : WorkVerificationContext)
    (hne : results ≠ []) (hperm : results.Perm results') :
    (aggregateVerificationResults rand results ctx).confidence =
      (aggregateVerificationResults rand' results' ctx).confidence ∧
    (aggregateVerificationResults rand results ctx).overall_score =
      (aggregateVerificationResults rand' results' ctx).overall_score ∧
    (aggregateVerificationResults rand results ctx).reasoning_path =
      (aggregateVerificationResults rand' results' ctx).reasoning_path ∧
    (∀ c, alist_getD
        (aggregateVerificationResults rand results ctx).category_scores c =
      alist_getD
        (aggregateVerificationResults rand' results' ctx).category_scores c) ∧
    (aggregateVerificationResults rand results ctx).recommendations.toFinset =
      (aggregateVerificationResults rand' results' ctx).recommendations.toFinset ∧
    (∀ t, wqaIsApproved (aggregateVerificationResults rand results ctx) t =
      wqaIsApproved (aggregateVerificationResults rand' results' ctx) t) := by
  have hne' : results' ≠ [] := by
    intro h
    exact hne (List.Perm.eq_nil (h ▸ hperm))
  have e : aggregateVerificationResults rand results ctx =
      aggregateCore results ctx := by
    obtain ⟨a, as, rfl⟩ := List.exists_cons_of_ne_nil hne
    rfl
  have e' : aggregateVerificationResults rand' results' ctx =
      aggregateCore results' ctx := by
    obtain ⟨a, as, rfl⟩ := List.exists_cons_of_ne_nil hne'
    rfl
  rw [e, e']
  have htw : totalWeight ctx.category results =
      totalWeight ctx.category results' :=
    List.Perm.sum_eq (hperm.map (resultWeight ctx.category))
  have hws_getD : ∀ c, alist_getD (accumWeighted ctx.category results) c =
      alist_getD (accumWeighted ctx.category results') c := by
    intro c
    rw [accumWeighted_getD, accumWeighted_getD]
    exact List.Perm.sum_eq (hperm.map _)
  have hws_len : (accumWeighted ctx.category results).length =
      (accumWeighted ctx.category results').length :=
    accumWeighted_length_perm ctx.category hperm
  have hws_vs : valsSum (accumWeighted ctx.category results) =
      valsSum (accumWeighted ctx.category results') := by
    rw [accumWeighted_valsSum, accumWeighted_valsSum]
    exact List.Perm.sum_eq (hperm.map _)
  have hcs : (aggregateCore results ctx).category_scores =
      (if 0 < totalWeight ctx.category results then
        (accumWeighted ctx.category results).map
          (fun p => (p.1, p.2 / totalWeight ctx.category results))
       else accumWeighted ctx.category results) := rfl
  have hcs' : (aggregateCore results' ctx).category_scores =
      (if 0 < totalWeight ctx.category results' then
        (accumWeighted ctx.category results').map
          (fun p => (p.1, p.2 / totalWeight ctx.category results'))
       else accumWeighted ctx.category results') := rfl
  have hgetD : ∀ c,
      alist_getD (aggregateCore results ctx).category_scores c =
        alist_getD (aggregateCore results' ctx).category_scores c := by
    intro c
    rw [hcs, hcs']
    by_cases hpos : 0 < totalWeight ctx.category results
    · rw [if_pos hpos, if_pos (htw ▸ hpos), alist_getD_map_div,
        alist_getD_map_div, hws_getD c, htw]
    · rw [if_neg hpos, if_neg (htw ▸ hpos)]
      exact hws_getD c
  have hlencs : (aggregateCore results ctx).category_scores.length =
      (aggregateCore results' ctx).category_scores.length := by
    rw [hcs, hcs']
    by_cases hpos : 0 < totalWeight ctx.category results
    · rw [if_pos hpos, if_pos (htw ▸ hpos)]
      simpa using hws_len
    · rw [if_neg hpos, if_neg (htw ▸ hpos)]
      exact hws_len
  have hvscs : valsSum (aggregateCore results ctx).category_scores =
      valsSum (aggregateCore results' ctx).category_scores := by
    rw [hcs, hcs']
    by_cases hpos : 0 < totalWeight ctx.category results
    · rw [if_pos hpos, if_pos (htw ▸ hpos), valsSum_map_div,
        valsSum_map_div, hws_vs, htw]
    · rw [if_neg hpos, if_neg (htw ▸ hpos)]
      exact hws_vs
  have hconf : (aggregateCore results ctx).confidence =
      (aggregateCore results' ctx).confidence := by
    have ec : (aggregateCore results ctx).confidence =
        (results.map (fun r => r.confidence)).sum /
          (results.length : ℚ) := rfl
    have ec' : (aggregateCore results' ctx).confidence =
        (results'.map (fun r => r.confidence)).sum /
          (results'.length : ℚ) := rfl
    rw [ec, ec', List.Perm.sum_eq (hperm.map (fun r => r.confidence)),
      hperm.length_eq]
  have hov : (aggregateCore results ctx).overall_score =
      (aggregateCore results' ctx).overall_score := by
    have eo : (aggregateCore results ctx).overall_score =
        (if (aggregateCore results ctx).category_scores.isEmpty then 0
         else valsSum (aggregateCore results ctx).category_scores /
           ((aggregateCore results ctx).category_scores.length : ℚ)) := rfl
    have eo' : (aggregateCore results' ctx).overall_score =
        (if (aggregateCore results' ctx).category_scores.isEmpty then 0
         else valsSum (aggregateCore results' ctx).category_scores /
           ((aggregateCore results' ctx).category_scores.length : ℚ)) := rfl
    rw [eo, eo',
      isEmpty_eq_of_length_eq _ _ hlencs, hvscs, hlencs]
  refine ⟨hconf, hov, ?_, hgetD, ?_, ?_⟩
  · have er : (aggregateCore results ctx).reasoning_path =
        ["Aggregated from " ++ toString results.length ++
          " specialist agents"] := rfl
    have er' : (aggregateCore results' ctx).reasoning_path =
        ["Aggregated from " ++ toString results'.length ++
          " specialist agents"] := rfl
    rw [er, er', hperm.length_eq]
  · have em : (aggregateCore results ctx).recommendations =
        pyDedup (allRecommendations results) := rfl
    have em' : (aggregateCore results' ctx).recommendations =
        pyDedup (allRecommendations results') := rfl
    rw [em, em']
    ext x
    simp only [List.mem_toFinset, pyDedup_mem, allRecommendations_mem]
    constructor
    · rintro ⟨r, hr, hx⟩
      exact ⟨r, hperm.mem_iff.mp hr, hx⟩
    · rintro ⟨r, hr, hx⟩
      exact ⟨r, hperm.mem_iff.mpr hr, hx⟩
  · intro t
    simp only [wqaIsApproved, hov, hconf]

/-- C6 counterexample: aggregation is not a pure function of the result
set as claimed — on the empty set it consumes fresh randomness, so two
invocations can return different category scores, and on a non-empty set a
permutation of the same results reorders the deduplicated recommendation
list, so the decisions are not bit-identical. -/
theorem c6_counterexample :
    (aggregateVerificationResults (fun _ => 3/5) [] cexCtx).category_scores ≠
      (aggregateVerificationResults (fun _ => 7/10) [] cexCtx).category_scores ∧
    (aggregateVerificationResults (fun _ => 1)
        [cexAgentResultA, cexAgentResultB] cexCtx).recommendations ≠
      (aggregateVerificationResults (fun _ => 1)
        [cexAgentResultB, cexAgentResultA] cexCtx).recommendations ∧
    [cexAgentResultA, cexAgentResultB].Perm
      [cexAgentResultB, cexAgentResultA] := by
  refine ⟨?_, by decide, List.Perm.swap cexAgentResultB cexAgentResultA []⟩
  have e1 : (aggregateVerificationResults (fun _ => 3/5) []
      cexCtx).category_scores =
      (ruleWeights (categoryNode "web development")).map
        (fun p => (p.1, evaluateCriterion (fun _ => 3/5) p.1 [] "")) := rfl
  have e2 : (aggregateVerificationResults (fun _ => 7/10) []
      cexCtx).category_scores =
      (ruleWeights (categoryNode "web development")).map
        (fun p => (p.1, evaluateCriterion (fun _ => 7/10) p.1 [] "")) := rfl
  rw [e1, e2]
  have hcat : categoryNode "web development" = "code_quality" := by decide
  rw [hcat]
  simp [ruleWeights, evaluateCriterion, min_def]
  norm_num

/-- Witness for `c6_aggregation_invariance` on a two-element swap with two
different random environments. -/
theorem c6_aggregation_invariance_witness :
    (aggregateVerificationResults (fun _ => 1)
        [cexAgentResultA, cexAgentResultB] cexCtx).confidence =
      (aggregateVerificationResults (fun _ => 2)
        [cexAgentResultB, cexAgentResultA] cexCtx).confidence ∧
    (aggregateVerificationResults (fun _ => 1)
        [cexAgentResultA, cexAgentResultB] cexCtx).overall_score =
      (aggregateVerificationResults (fun _ => 2)
        [cexAgentResultB, cexAgentResultA] cexCtx).overall_score ∧
    (aggregateVerificationResults (fun _ => 1)
        [cexAgentResultA, cexAgentResultB] cexCtx).reasoning_path =
      (aggregateVerificationResults (fun _ => 2)
        [cexAgentResultB, cexAgentResultA] cexCtx).reasoning_path ∧
    (∀ c, alist_getD (aggregateVerificationResults (fun _ => 1)
        [cexAgentResultA, cexAgentResultB] cexCtx).category_scores c =
      alist_getD (aggregateVerificationResults (fun _ => 2)
        [cexAgentResultB, cexAgentResultA] cexCtx).category_scores c) ∧
    (aggregateVerificationResults (fun _ => 1)
        [cexAgentResultA, cexAgentResultB] cexCtx).recommendations.toFinset =
      (aggregateVerificationResults (fun _ => 2)
        [cexAgentResultB, cexAgentResultA] cexCtx).recommendations.toFinset ∧
    (∀ t, wqaIsApproved (aggregateVerificationResults (fun _ => 1)
        [cexAgentResultA, cexAgentResultB] cexCtx) t =
      wqaIsApproved (aggregateVerificationResults (fun _ => 2)
        [cexAgentResultB, cexAgentResultA] cexCtx) t) :=
  c6_aggregation_invariance (fun _ => 1) (fun _ => 2)
    [cexAgentResultA, cexAgentResultB] [cexAgentResultB, cexAgentResultA]
    cexCtx (by simp) (List.Perm.swap cexAgentResultB cexAgentResultA [])
